import Mathlib

/-!
Verification of the incremental help-file generator (`help_gen.py`).

The development shallowly embeds the Python module `src/help_gen.py`:

* The Python `ast` library is an external collaborator.  An expression node
  is modelled by the pair of renderings the generator actually consumes:
  its structural dump (`ast.dump`) and its source rendering (`ast.unparse`).
* Docstrings are modelled as an optional field (`ast.get_docstring`).
  Function bodies beyond the docstring, nested functions inside functions
  and classes nested inside classes are not modelled: no verified property
  depends on them, and class-in-class nesting is an explicit non-goal of
  the design.
* `hashlib.sha256(...).hexdigest()` is an external cryptographic digest; the
  generator uses it only through equality of digests, so the model takes the
  digest of a content string to be the content string itself (an injective
  idealisation, which is exactly the collision-freeness the design assumes).
* `ast.walk` is breadth-first; for the trees of this model (depth two:
  the module's statements, then the methods of each class) that order is the
  top-level declarations in source order followed by the methods of each
  class in source order.
* Python `dict`s keep first-insertion order and overwrite in place; they are
  modelled by association lists with an insert-or-overwrite operation.
* File-system state that the generator reads and writes (the persisted
  checksum file, existence of the rendered output file) is passed
  explicitly; a run of `_generate_help_content` is a function of the module
  tree, the exclusion list and that state.
* The `NameError` that CPython raises when `class_name` is read while
  unbound is modelled by an `Except` error value.
-/

set_option maxHeartbeats 2000000
set_option maxRecDepth 4096

/-- A Python expression node, as the generator consumes it: `dump` is the
string `ast.dump(e)` (structural dump), `unparse` is `ast.unparse(e)`
(canonical source text).  Both come from the external `ast` library. -/
structure PyExpr where
  dump : String
  unparse : String
deriving DecidableEq, Repr

/-- One formal parameter (`ast.arg`): its name and its optional type
annotation (`None` in the source becomes `none`). -/
structure PyArg where
  name : String
  annot : Option PyExpr
deriving DecidableEq, Repr

/-- The `ast.arguments` record of a `FunctionDef`: positional arguments,
optional `*vararg`, keyword-only arguments with their positionally aligned
optional defaults, optional `**kwarg`, and the defaults of the trailing
positional arguments. -/
structure PyArguments where
  args : List PyArg
  vararg : Option String
  kwonlyargs : List PyArg
  kw_defaults : List (Option PyExpr)
  kwarg : Option String
  defaults : List PyExpr
deriving DecidableEq, Repr

/-- An `ast.FunctionDef` node as the generator reads it: name, argument
record, docstring (`ast.get_docstring`), decorator list. -/
structure FunctionDef where
  name : String
  args : PyArguments
  docstring : Option String
  decorator_list : List PyExpr
deriving DecidableEq, Repr

/-- A statement in a class body: a method (`ast.FunctionDef`) or any other
statement, which the generator ignores. -/
inductive ClassItem where
  | funcDef (f : FunctionDef)
  | other
deriving DecidableEq, Repr

/-- An `ast.ClassDef` node: name, docstring, base expressions, decorator
list and body. -/
structure ClassDef where
  name : String
  docstring : Option String
  bases : List PyExpr
  decorator_list : List PyExpr
  body : List ClassItem
deriving DecidableEq, Repr

/-- A top-level statement of the parsed module (`tree.body` entry). -/
inductive Stmt where
  | classDef (c : ClassDef)
  | functionDef (f : FunctionDef)
  | other
deriving DecidableEq, Repr

/-- The parsed module: `tree.body`. -/
abbrev PyModule := List Stmt

/-- A declaration that `ast.walk` hands to the checksum pass. -/
inductive Decl where
  | classDecl (c : ClassDef)
  | funcDecl (f : FunctionDef)
deriving DecidableEq, Repr

/-- The checksum dictionary: insertion-ordered association list from node
key to checksum, mirroring a Python `dict`. -/
abbrev Checksums := List (String × String)

/-- Python `sep.join(parts)`. -/
def joinSep (sep : String) : List String → String
  | [] => ""
  | [x] => x
  | x :: y :: rest => x ++ sep ++ joinSep sep (y :: rest)

/-- Python `', '.join(parts)`. -/
def commaJoin : List String → String := joinSep ", "

/-- The escaping inside a Python string repr with quote character `q`:
backslashes and the quote character get a backslash.  (Control-character
escapes of the real repr are not modelled; no dump string in this
development contains them.) -/
def escQuote (q : Char) : List Char → List Char
  | [] => []
  | c :: cs =>
      (if c = '\\' then ['\\', '\\'] else if c = q then ['\\', q] else [c]) ++ escQuote q cs

/-- The quote character Python `repr` picks for a `str`: single quotes,
except double quotes when the string contains a single quote and no double
quote. -/
def pyQuote (s : String) : Char :=
  if s.data.contains '\'' && !(s.data.contains '"') then '"' else '\''

/-- Python `repr` of a `str`. -/
def pyStrRepr (s : String) : String :=
  String.mk (pyQuote s :: (escQuote (pyQuote s) s.data ++ [pyQuote s]))

/-- Python `str` of a list of strings, as an f-string renders it:
`['a', 'b']`. -/
def pyListRepr (l : List String) : String :=
  "[" ++ commaJoin (l.map pyStrRepr) ++ "]"

/-- Python `s.lower()` (over the characters, kernel-computable). -/
def pyLower (s : String) : String := String.mk (s.data.map Char.toLower)

/-- `_get_type_annot`: the unparsed annotation, or the sentinel
`"Any"` when absent. -/
def get_type_annot : Option PyExpr → String
  | none => "Any"
  | some e => e.unparse

/-- `_unparse_or_format`: `ast.unparse` of a default expression (the
fallback paths for missing `ast.unparse` and for raised exceptions are not
reachable in this model, where `unparse` is total). -/
def unparse_or_format (e : PyExpr) : String := e.unparse

/-- `_format_arg_line`: `name: type` or `name: type = default`. -/
def format_arg_line (name type_str : String) : Option String → String
  | some d => name ++ ": " ++ type_str ++ " = " ++ d
  | none => name ++ ": " ++ type_str

/-- `_get_argument_details`: detailed argument lines.  A positional
argument at index `i` (over `N` positionals with `D` defaults) takes the
default at `i - (N - D)` when `i >= N - D`; a keyword-only argument takes
the default at its own index when that entry is not `None`. -/
def get_argument_details (node : FunctionDef) : List String :=
  let a := node.args
  let N := a.args.length
  let D := a.defaults.length
  let pos := a.args.enum.map fun (i, arg) =>
    let default_value : Option String :=
      if D ≠ 0 ∧ N - D ≤ i then (a.defaults.get? (i - (N - D))).map unparse_or_format
      else none
    format_arg_line arg.name (get_type_annot arg.annot) default_value
  let kwonly := a.kwonlyargs.enum.map fun (i, arg) =>
    let default_value : Option String :=
      match a.kw_defaults.get? i with
      | some (some e) => some (unparse_or_format e)
      | _ => none
    format_arg_line arg.name (get_type_annot arg.annot) default_value
  pos ++ kwonly

/-- `_get_function_signature`: the canonical signature string that feeds the
checksum.  Positional names, `*vararg`, a bare `*` then the keyword-only
names, `**kwarg`, all comma-joined in parentheses; then the structural dumps
of the positional defaults and of the non-`None` keyword-only defaults,
rendered as Python renders a list of strings in an f-string. -/
def get_function_signature (node : FunctionDef) : String :=
  let args := node.args.args.map (·.name)
  let vararg := match node.args.vararg with
    | some v => "*" ++ v
    | none => ""
  let kwonlyargs := node.args.kwonlyargs.map (·.name)
  let kwarg := match node.args.kwarg with
    | some k => "**" ++ k
    | none => ""
  let defaults := node.args.defaults.map (·.dump)
  let kw_defaults := (node.args.kw_defaults.filterMap id).map (·.dump)
  let sig_parts : List String :=
    (if args = [] then [] else [commaJoin args]) ++
    (if vararg = "" then [] else [vararg]) ++
    (if kwonlyargs = [] then [] else ["*", commaJoin kwonlyargs]) ++
    (if kwarg = "" then [] else [kwarg])
  let signature := "(" ++ commaJoin sig_parts ++ ")"
  let signature :=
    if defaults = [] then signature
    else signature ++ " defaults=" ++ pyListRepr defaults
  if kw_defaults = [] then signature
  else signature ++ " kw_defaults=" ++ pyListRepr kw_defaults

/-- The model of `hashlib.sha256(content).hexdigest()`: the digest is used
only through equality, so it is taken to be the content itself (injective
idealisation of the external digest). -/
def sha256hex (s : String) : String := s

/-- The methods of a class body, in source order. -/
def classFuncs (c : ClassDef) : List FunctionDef :=
  c.body.filterMap fun
    | .funcDef f => some f
    | .other => none

/-- `_calculate_node_checksum`: the per-declaration fingerprint.  A class
hashes its name, docstring, base dumps, decorator dumps and each method's
name, signature and docstring; a function hashes its name, docstring,
decorator dumps and signature. -/
def calculate_node_checksum : Decl → String
  | .classDecl c =>
      let content := "ClassDef:" ++ c.name ++ ":" ++ c.docstring.getD "" ++ ":" ++
        "bases:" ++ joinSep "," (c.bases.map (·.dump)) ++ ":" ++
        "decorators:" ++ joinSep "," (c.decorator_list.map (·.dump)) ++ ":" ++
        String.join ((classFuncs c).map fun f =>
          "|" ++ f.name ++ ":" ++ get_function_signature f ++ ":" ++ f.docstring.getD "")
      sha256hex content
  | .funcDecl f =>
      let content := "FunctionDef:" ++ f.name ++ ":" ++ f.docstring.getD "" ++ ":" ++
        "decorators:" ++ joinSep "," (f.decorator_list.map (·.dump)) ++ ":" ++
        "signature:" ++ get_function_signature f
      sha256hex content

/-- The key under which a declaration's checksum is stored: the plain name
for a function, `class_` plus the name for a class. -/
def nodeKey : Decl → String
  | .classDecl c => "class_" ++ c.name
  | .funcDecl f => f.name

/-- The class and function declarations that `ast.walk` yields, in walk
(breadth-first) order: top-level declarations in source order, then the
methods of each top-level class in source order. -/
def walkDecls (m : PyModule) : List Decl :=
  (m.filterMap fun
    | .classDef c => some (Decl.classDecl c)
    | .functionDef f => some (Decl.funcDecl f)
    | .other => none) ++
  ((m.filterMap fun
    | .classDef c => some c
    | _ => none).map fun c => (classFuncs c).map Decl.funcDecl).flatten

/-- Insert-or-overwrite on the checksum dictionary, mirroring
`d[k] = v` on a Python `dict` (first-insertion order is kept). -/
def dictInsert (d : Checksums) (k v : String) : Checksums :=
  if d.any (fun p => p.1 = k) then d.map fun p => if p.1 = k then (k, v) else p
  else d ++ [(k, v)]

/-- The first pass of `_generate_help_content`: the fresh checksum
dictionary over all walked declarations. -/
def buildChecksums (m : PyModule) : Checksums :=
  (walkDecls m).foldl (fun d n => dictInsert d (nodeKey n) (calculate_node_checksum n)) []

/-- Python `d.get(k)` on the checksum dictionary. -/
def dictGet (d : Checksums) (k : String) : Option String :=
  (d.find? fun p => p.1 = k).map (·.2)

/-- Python `set(a.keys()) == set(b.keys())`. -/
def keySetEq (a b : Checksums) : Bool :=
  (a.map (·.1)).all (fun k => (b.map (·.1)).contains k) &&
  (b.map (·.1)).all (fun k => (a.map (·.1)).contains k)

/-- The change detector of `_generate_help_content`: regeneration is needed
when the key sets differ, or otherwise when some current entry's checksum
differs from the previously stored one. -/
def needs_update (current previous : Checksums) : Bool :=
  if !keySetEq current previous then true
  else current.any fun p => !(dictGet previous p.1 == some p.2)

/-- `_extract_help_from_docstring`: `None` (and the empty docstring, which
is falsy) give nothing; otherwise the stripped docstring. -/
def stripChars (l : List Char) : List Char :=
  ((l.dropWhile Char.isWhitespace).reverse.dropWhile Char.isWhitespace).reverse

/-- Python `s.strip()`. -/
def pyStrip (s : String) : String := String.mk (stripChars s.data)

/-- `_extract_help_from_docstring` on the optional docstring. -/
def extract_help_from_docstring : Option String → Option String
  | none => none
  | some d => if d = "" then none else some (pyStrip d)

/-- Python truthiness of the optional help text (`if help_text:`): an empty
string is falsy. -/
def truthy : Option String → Option String
  | none => none
  | some s => if s = "" then none else some s

/-- The first half of an argument-detail line split at the first `:` and the
rest, mirroring `arg.split(':', 1)`. -/
def splitFirstOn (c : Char) : List Char → List Char × Option (List Char)
  | [] => ([], none)
  | x :: xs =>
      if x = c then ([], some xs)
      else
        let r := splitFirstOn c xs
        (x :: r.1, r.2)

/-- The cleaning step of `generate_usage_code` on one argument-detail line:
`none` when the parameter part is `self` (the line is dropped), otherwise
the parameter name, with `=default` appended when the rest of the line holds
an `=`. -/
def cleanArg (arg : String) : Option String :=
  let parts := splitFirstOn ':' arg.data
  let param_part := stripChars parts.1
  if param_part = "self".data then none
  else
    match parts.2 with
    | none => some (String.mk param_part)
    | some tail =>
        if tail.contains '=' then
          let default_part := stripChars ((splitFirstOn '=' tail).2.getD [])
          some (String.mk (param_part ++ '=' :: default_part))
        else some (String.mk param_part)

/-- `generate_usage_code`: a receiver assignment line, then the call —
empty parentheses with no remaining argument, inline with exactly one,
one argument per indented line with two or more. -/
def generate_usage_code (class_name name : String) (usage_args : List String) : String :=
  let class_obj := "self." ++ pyLower class_name ++ "_obj"
  let usage_string := class_obj ++ " = " ++ class_name ++ "\n\n"
  let cleaned_args := usage_args.filterMap cleanArg
  let call_start := if name = "__init__" then class_obj ++ "(" else class_obj ++ "." ++ name ++ "("
  match cleaned_args with
  | [] => usage_string ++ call_start ++ ")"
  | [a] => usage_string ++ call_start ++ a ++ ")"
  | args => usage_string ++ call_start ++ "\n" ++
      joinSep ",\n" (args.map fun a => "    " ++ a) ++ "\n)"

/-- The anchor element `<a id="..."></a>` plus newline. -/
def anchorLine (a : String) : String := "<a id=\"" ++ a ++ "\"></a>\n"

/-- The anchor of a method section. -/
def methodAnchor (cls meth : String) : String :=
  "method-" ++ pyLower cls ++ "-" ++ pyLower meth

/-- A quick link to a method. -/
def methodLink (cls : String) (f : FunctionDef) : String :=
  "[`" ++ f.name ++ "`](#" ++ methodAnchor cls f.name ++ ")"

/-- The rendered section of one method (the `help_entry` built for a class
child). -/
def methodEntry (cls class_anchor : String) (args_seperatly : Bool) (f : FunctionDef) : String :=
  anchorLine (methodAnchor cls f.name) ++
  "### Method: `" ++ f.name ++ "`\n" ++
  (if args_seperatly then
    "#### Arguments:\n" ++ joinSep "\n" ((get_argument_details f).map fun a => "- " ++ a)
   else "") ++
  (match truthy (extract_help_from_docstring f.docstring) with
   | some h => "\n#### Help:\n> " ++ h ++ "\n"
   | none => "\n#### Help:\n> No help provided.\n") ++
  "\n#### Usage:\n ```python\n" ++
    generate_usage_code cls f.name (get_argument_details f) ++ "\n```\n" ++
  "\n\n[Back to `" ++ cls ++ "`](#" ++ class_anchor ++ ") or [Classes](#top)\n\n"

/-- The lines a class contributes to `help_content`: anchor, header, quick
links when a non-excluded method exists, then the method entries. -/
def classEntries (exclusion_list : List String) (args_seperatly : Bool) (c : ClassDef) :
    List String :=
  let class_anchor := "class-" ++ pyLower c.name
  let method_links := (classFuncs c).filterMap fun f =>
    if f.name ∈ exclusion_list then none else some (methodLink c.name f)
  [anchorLine class_anchor, "## Class: `" ++ c.name ++ "`\n"] ++
  (if method_links = [] then [] else
    ["### Quick Links:\n", joinSep " | " method_links, "\n"]) ++
  ((classFuncs c).filterMap fun f =>
    if f.name ∈ exclusion_list then none
    else some (methodEntry c.name class_anchor args_seperatly f))

/-- The rendered section of one top-level function.  `cls` is the value of
the `class_name` variable at that point of the loop: the name of the most
recently processed class. -/
def funcEntry (cls : String) (args_seperatly : Bool) (f : FunctionDef) : String :=
  anchorLine ("func-" ++ pyLower f.name) ++
  "## Function: `" ++ f.name ++ "`\n" ++
  (if args_seperatly then
    "### Arguments:\n" ++ joinSep "\n" ((get_argument_details f).map fun a => "- " ++ a)
   else "") ++
  (match truthy (extract_help_from_docstring f.docstring) with
   | some h => "\n### Help:\n> " ++ h ++ "\n"
   | none => "\n### Help:\n> No help provided.\n") ++
  "\n### Usage:\n```python\n" ++
    generate_usage_code cls f.name (get_argument_details f) ++ "\n```\n" ++
  "\n[Back to top](#top)\n\n"

/-- The message of the `NameError` CPython raises when a top-level function
is rendered before any class bound `class_name`. -/
def nameErrorMsg : String := "NameError: name class_name is not defined"

/-- The second pass of `_generate_help_content` over `tree.body`: the
accumulated `help_content` entries, threading the `class_name` binding
(`none` while the variable is still unbound). -/
def renderStmts (exclusion_list : List String) (args_seperatly : Bool) :
    Option String → List Stmt → Except String (Option String × List String)
  | cn, [] => Except.ok (cn, [])
  | cn, .other :: rest => renderStmts exclusion_list args_seperatly cn rest
  | _, .classDef c :: rest =>
      match renderStmts exclusion_list args_seperatly (some c.name) rest with
      | .error e => .error e
      | .ok (cn', es) => .ok (cn', classEntries exclusion_list args_seperatly c ++ es)
  | cn, .functionDef f :: rest =>
      if f.name ∈ exclusion_list then renderStmts exclusion_list args_seperatly cn rest
      else
        match cn with
        | none => .error nameErrorMsg
        | some cls =>
            match renderStmts exclusion_list args_seperatly cn rest with
            | .error e => .error e
            | .ok (cn', es) => .ok (cn', funcEntry cls args_seperatly f :: es)

/-- The table-of-contents links for classes (lines 376-379): every
top-level class, with no exclusion check. -/
def tocClassLinks (m : PyModule) : List String :=
  m.filterMap fun
    | .classDef c => some ("[`" ++ c.name ++ "`](#class-" ++ pyLower c.name ++ ")")
    | _ => none

/-- The table-of-contents links for standalone functions (lines 389-392):
top-level functions not in the exclusion list. -/
def tocFuncLinks (m : PyModule) (exclusion_list : List String) : List String :=
  m.filterMap fun
    | .functionDef f =>
        if f.name ∈ exclusion_list then none
        else some ("[`" ++ f.name ++ "`](#func-" ++ pyLower f.name ++ ")")
    | _ => none

/-- The table-of-contents lines (`toc`), built when `help_content` is
non-empty. -/
def tocOf (m : PyModule) (exclusion_list : List String) : List String :=
  [anchorLine "top", "## Table of Contents\n"] ++
  (if tocClassLinks m = [] then [] else
    ["### Classes:\n", joinSep " | " (tocClassLinks m), "\n"]) ++
  (if tocFuncLinks m exclusion_list = [] then [] else
    ["### Functions:\n", joinSep " | " (tocFuncLinks m exclusion_list), "\n"])

/-- The document text of the second pass: the joined `help_content` with
the table of contents inserted in front when any entry exists, or the
`NameError`. -/
def renderDoc (m : PyModule) (exclusion_list : List String) (args_seperatly : Bool) :
    Except String String :=
  match renderStmts exclusion_list args_seperatly none m with
  | .error e => .error e
  | .ok (_, entries) =>
      .ok (joinSep "\n\n"
        (if entries = [] then entries else joinSep "\n" (tocOf m exclusion_list) :: entries))

/-- The observable outcome of one `_generate_help_content` run: the raised
`NameError` (nothing persisted), the short-circuit return of `""` after
persisting, or the generated document after persisting. -/
inductive RunOutcome where
  | error (msg : String)
  | skipped (persisted : Checksums)
  | generated (doc : String) (persisted : Checksums)
deriving DecidableEq, Repr

/-- Whether an outcome is the raised `NameError`. -/
def RunOutcome.isError : RunOutcome → Bool
  | .error _ => true
  | _ => false

/-- Whether an outcome is the short-circuit "no changes" return. -/
def RunOutcome.isSkipped : RunOutcome → Bool
  | .skipped _ => true
  | _ => false

/-- The checksum dictionary the run persisted, if it reached a save. -/
def RunOutcome.persisted : RunOutcome → Option Checksums
  | .error _ => none
  | .skipped c => some c
  | .generated _ c => some c

/-- `_generate_help_content` as a function of the module tree, the
exclusion list, the previously persisted checksums, whether the output file
exists, and the separate-arguments flag. -/
def generate_help_content (m : PyModule) (exclusion_list : List String)
    (previous_checksums : Checksums) (outputExists : Bool) (args_seperatly : Bool) :
    RunOutcome :=
  if !needs_update (buildChecksums m) previous_checksums && outputExists then
    .skipped (buildChecksums m)
  else
    match renderDoc m exclusion_list args_seperatly with
    | .error e => .error e
    | .ok doc => .generated doc (buildChecksums m)

/-- The file-system state the generator reads and writes across runs: the
persisted checksum dictionary (empty when the file is absent) and whether
the rendered output file exists. -/
structure FsState where
  prevChecksums : Checksums
  outputExists : Bool
deriving DecidableEq, Repr

/-- One full run under the default configuration (`overwrite = True`):
`_generate_help_content` plus the file writes of `generate_help_file` —
checksums persisted by every completed run, the output file written only
when the returned content is non-empty. -/
def runPipeline (m : PyModule) (exclusion_list : List String) (args_seperatly : Bool)
    (s : FsState) : RunOutcome × FsState :=
  match generate_help_content m exclusion_list s.prevChecksums s.outputExists args_seperatly with
  | .error e => (.error e, s)
  | .skipped c => (.skipped c, ⟨c, s.outputExists⟩)
  | .generated doc c => (.generated doc c, ⟨c, s.outputExists || !(doc == "")⟩)

/-- The spec's example scenario: the expression `"World"` as the `ast`
library renders it. -/
def worldExpr : PyExpr := ⟨"Constant(value='World')", "'World'"⟩

/-- The annotation `str` as the `ast` library renders it. -/
def strExpr : PyExpr := ⟨"Name(id='str', ctx=Load())", "str"⟩

/-- The constructor `__init__(self, name: str = "World")` of the example
scenario. -/
def initFunc : FunctionDef :=
  ⟨"__init__", ⟨[⟨"self", none⟩, ⟨"name", some strExpr⟩], none, [], [], none, [worldExpr]⟩,
    none, []⟩

/-- The method `greet(self)` with docstring `"Say hello."` of the example
scenario. -/
def greetFunc : FunctionDef :=
  ⟨"greet", ⟨[⟨"self", none⟩], none, [], [], none, []⟩, some "Say hello.", []⟩

/-- The example module: `class Greeter` with `__init__` and `greet`. -/
def greeterModule : PyModule :=
  [.classDef ⟨"Greeter", none, [], [], [.funcDef initFunc, .funcDef greetFunc]⟩]

/-- A top-level function with no parameters (`def main(): ...`). -/
def mainFunc : FunctionDef := ⟨"main", ⟨[], none, [], [], none, []⟩, none, []⟩

/-- A module whose only top-level declaration is a function with no
parameters. -/
def funcOnlyModule : PyModule := [.functionDef mainFunc]

/-- A checksum dictionary with no repeated key, the invariant every Python
`dict` satisfies. -/
def NodupKeys (d : Checksums) : Prop := (d.map (·.1)).Nodup

/-- Whether a top-level statement is a class definition. -/
def isClassStmt : Stmt → Bool
  | .classDef _ => true
  | _ => false

/-- Whether the module has at least one renderable unit: a top-level class
(rendered even when excluded) or a non-excluded top-level function. -/
def renderableB (m : PyModule) (exclusion_list : List String) : Bool :=
  m.any fun s =>
    match s with
    | .classDef _ => true
    | .functionDef f => if f.name ∈ exclusion_list then false else true
    | .other => false

/-- Modelled from the spec: the receiver-assignment line that opens every
usage example. -/
def usagePrelude (class_name : String) : String :=
  "self." ++ pyLower class_name ++ "_obj" ++ " = " ++ class_name ++ "\n\n"

/-- Modelled from the spec: the opening of the call expression — a
construction expression for the constructor sentinel, a method call on the
canonical receiver otherwise. -/
def callReceiver (class_name name : String) : String :=
  if name = "__init__" then "self." ++ pyLower class_name ++ "_obj" ++ "("
  else "self." ++ pyLower class_name ++ "_obj" ++ "." ++ name ++ "("

/-- Modelled from the spec: the call rendering rule over the remaining
(receiver-free) parameters — empty parentheses for zero, inline for exactly
one, one parameter per line with the closing parenthesis on its own line
for two or more. -/
def renderCallSpec (call_start : String) : List String → String
  | [] => call_start ++ ")"
  | [a] => call_start ++ a ++ ")"
  | args => call_start ++ "\n" ++ joinSep ",\n" (args.map fun a => "    " ++ a) ++ "\n)"

/-- A Python identifier character (the characters a declaration name is
made of). -/
def isIdentChar (c : Char) : Bool := c.isAlphanum || c = '_'

/-- A non-empty string of identifier characters. -/
def isIdentStr (s : String) : Bool := !s.data.isEmpty && s.data.all isIdentChar

/-- All parameter names of a function are identifiers — true of every
parse-produced `FunctionDef`. -/
def sigNamesOk (f : FunctionDef) : Bool :=
  (f.args.args.all fun a => isIdentStr a.name) &&
  (match f.args.vararg with | some v => isIdentStr v | none => true) &&
  (f.args.kwonlyargs.all fun a => isIdentStr a.name) &&
  (match f.args.kwarg with | some k => isIdentStr k | none => true)

/-- The data that `_get_function_signature` actually depends on: positional
names in order, the vararg, keyword-only names in order, the kwarg, the
structural dumps of the positional defaults, and the dumps of the present
(non-`None`) keyword-only defaults in order. -/
def sigComponents (f : FunctionDef) :
    List String × Option String × List String × Option String × List String × List String :=
  (f.args.args.map (·.name), f.args.vararg, f.args.kwonlyargs.map (·.name), f.args.kwarg,
   f.args.defaults.map (·.dump), (f.args.kw_defaults.filterMap id).map (·.dump))

/-- The token list of the parenthesised part of a canonical signature: the
positional names, then `*vararg` when present, then a bare `*` and the
keyword-only names when any, then `**kwarg` when present. -/
def sigTokens (f : FunctionDef) : List String :=
  f.args.args.map (·.name) ++
  (match f.args.vararg with | some v => ["*" ++ v] | none => []) ++
  (match f.args.kwonlyargs.map (·.name) with | [] => [] | ks => "*" :: ks) ++
  (match f.args.kwarg with | some k => ["**" ++ k] | none => [])

/-- The vararg section of the token list. -/
def vtok : Option String → List String
  | some v => ["*" ++ v]
  | none => []

/-- The keyword-only section of the token list: a bare `*` marker, then the
names. -/
def ktok : List String → List String
  | [] => []
  | ks => "*" :: ks

/-- The kwarg section of the token list. -/
def wtok : Option String → List String
  | some k => ["**" ++ k]
  | none => []

/-- The optional suffix that a non-empty dump list contributes to the
signature. -/
def sfxPart (tag : String) (ds : List String) : String :=
  if ds = [] then "" else tag ++ pyListRepr ds

/-- `_get_function_signature` as a function of the data it reads (used to
state that nothing else — in particular no annotation — enters it). -/
def sigFromComponents
    (c : List String × Option String × List String × Option String × List String × List String) :
    String :=
  match c with
  | (args, varargOpt, kwonlyargs, kwargOpt, defaults, kw_defaults) =>
      let vararg := match varargOpt with
        | some v => "*" ++ v
        | none => ""
      let kwarg := match kwargOpt with
        | some k => "**" ++ k
        | none => ""
      let sig_parts : List String :=
        (if args = [] then [] else [commaJoin args]) ++
        (if vararg = "" then [] else [vararg]) ++
        (if kwonlyargs = [] then [] else ["*", commaJoin kwonlyargs]) ++
        (if kwarg = "" then [] else [kwarg])
      let signature := "(" ++ commaJoin sig_parts ++ ")"
      let signature :=
        if defaults = [] then signature
        else signature ++ " defaults=" ++ pyListRepr defaults
      if kw_defaults = [] then signature
      else signature ++ " kw_defaults=" ++ pyListRepr kw_defaults

/-- The annotation `int` as the `ast` library renders it. -/
def intExpr : PyExpr := ⟨"Name(id='int', ctx=Load())", "int"⟩

/-- The expression `1` as the `ast` library renders it. -/
def oneExpr : PyExpr := ⟨"Constant(value=1)", "1"⟩

/-- A function `f(*, a=1, b)`: keyword-only `a` holds the default. -/
def fKwA : FunctionDef :=
  ⟨"f", ⟨[], none, [⟨"a", none⟩, ⟨"b", none⟩], [some oneExpr, none], none, []⟩, none, []⟩

/-- A function `f(*, a, b=1)`: keyword-only `b` holds the default. -/
def fKwB : FunctionDef :=
  ⟨"f", ⟨[], none, [⟨"a", none⟩, ⟨"b", none⟩], [none, some oneExpr], none, []⟩, none, []⟩

/-- A function `f(x: int)`. -/
def fAnnInt : FunctionDef := ⟨"f", ⟨[⟨"x", some intExpr⟩], none, [], [], none, []⟩, none, []⟩

/-- The same function with only the annotation changed: `f(x: str)`. -/
def fAnnStr : FunctionDef := ⟨"f", ⟨[⟨"x", some strExpr⟩], none, [], [], none, []⟩, none, []⟩

/-- A method `m(self)` with docstring `"first"`. -/
def methodA : FunctionDef :=
  ⟨"m", ⟨[⟨"self", none⟩], none, [], [], none, []⟩, some "first", []⟩

/-- A method `m(self)` with docstring `"second"`. -/
def methodB : FunctionDef :=
  ⟨"m", ⟨[⟨"self", none⟩], none, [], [], none, []⟩, some "second", []⟩

/-- Two classes `A` and `B` that both define a method named `m`. -/
def twoClassModule : PyModule :=
  [.classDef ⟨"A", none, [], [], [.funcDef methodA]⟩,
   .classDef ⟨"B", none, [], [], [.funcDef methodB]⟩]

/-- A class named `m`, colliding in name with the method `m`. -/
def mClass : ClassDef := ⟨"m", none, [], [], []⟩

/-- A class `Hidden` with an empty body. -/
def hiddenClass : ClassDef := ⟨"Hidden", none, [], [], []⟩

/-- A module defining only the class `Hidden`. -/
def hiddenModule : PyModule := [.classDef hiddenClass]


/-! ### Dictionary lemmas -/

theorem contains_iff_mem (l : List String) (k : String) : l.contains k = true ↔ k ∈ l := by
  show l.elem k = true ↔ k ∈ l
  exact List.elem_iff

theorem nodupKeys_dictInsert (d : Checksums) (k v : String) (h : NodupKeys d) :
    NodupKeys (dictInsert d k v) := by
  unfold NodupKeys dictInsert
  split
  · have he : (d.map fun p => if p.1 = k then (k, v) else p).map (·.1) = d.map (·.1) := by
      rw [List.map_map]
      apply List.map_congr_left
      intro p _
      by_cases hp : p.1 = k
      · simp [hp]
      · simp [hp]
    rw [he]; exact h
  · rename_i hany
    rw [List.map_append, List.nodup_append]
    refine ⟨h, by simp, ?_⟩
    intro x hx hxk
    simp only [List.map_cons, List.map_nil, List.mem_singleton] at hxk
    subst hxk
    rcases List.mem_map.mp hx with ⟨p, hp, hpk⟩
    exact hany (List.any_eq_true.mpr ⟨p, hp, by simp [hpk]⟩)

theorem nodupKeys_buildChecksums (m : PyModule) : NodupKeys (buildChecksums m) := by
  unfold buildChecksums
  have step : ∀ (l : List Decl) (d : Checksums), NodupKeys d →
      NodupKeys (l.foldl (fun d n => dictInsert d (nodeKey n) (calculate_node_checksum n)) d) := by
    intro l
    induction l with
    | nil => intro d hd; simpa using hd
    | cons n rest ih =>
        intro d hd
        simp only [List.foldl_cons]
        exact ih _ (nodupKeys_dictInsert _ _ _ hd)
  exact step _ _ (by simp [NodupKeys])

theorem dictGet_self (d : Checksums) (h : NodupKeys d) (p : String × String) (hp : p ∈ d) :
    dictGet d p.1 = some p.2 := by
  induction d with
  | nil => cases hp
  | cons q rest ih =>
      unfold NodupKeys at h
      rw [List.map_cons, List.nodup_cons] at h
      rcases List.mem_cons.mp hp with rfl | hmem
      · unfold dictGet
        rw [List.find?_cons_of_pos _ (by simp)]
        rfl
      · have hq : ¬ (q.1 = p.1) := by
          intro hqp
          exact h.1 (hqp ▸ List.mem_map_of_mem (·.1) hmem)
        unfold dictGet
        rw [List.find?_cons_of_neg _ (by simpa using hq)]
        exact ih h.2 hmem

theorem dictGet_mem (d : Checksums) (k v : String) (h : dictGet d k = some v) : (k, v) ∈ d := by
  unfold dictGet at h
  rcases Option.map_eq_some'.mp h with ⟨q, hq, hqv⟩
  have hk : q.1 = k := by simpa using List.find?_some hq
  have hm := List.mem_of_find?_eq_some hq
  have hqkv : q = (k, v) := by
    obtain ⟨q1, q2⟩ := q
    simp only at hk hqv
    simp [hk, hqv]
  rwa [hqkv] at hm

theorem dictGet_some_iff_mem_keys (d : Checksums) (k : String) :
    (∃ v, dictGet d k = some v) ↔ k ∈ d.map (·.1) := by
  constructor
  · rintro ⟨v, hv⟩
    exact List.mem_map.mpr ⟨(k, v), dictGet_mem d k v hv, rfl⟩
  · intro hk
    rcases List.mem_map.mp hk with ⟨p, hp, hpk⟩
    have hs : (d.find? fun q => decide (q.1 = k)).isSome := by
      rw [List.find?_isSome]
      exact ⟨p, hp, by simp [hpk]⟩
    rcases Option.isSome_iff_exists.mp hs with ⟨q, hq⟩
    exact ⟨q.2, by unfold dictGet; rw [hq]; rfl⟩

theorem keySetEq_iff (a b : Checksums) :
    keySetEq a b = true ↔ (∀ k, k ∈ a.map (·.1) ↔ k ∈ b.map (·.1)) := by
  unfold keySetEq
  rw [Bool.and_eq_true, List.all_eq_true, List.all_eq_true]
  constructor
  · rintro ⟨h1, h2⟩ k
    constructor
    · intro hk; exact (contains_iff_mem _ _).mp (h1 k hk)
    · intro hk; exact (contains_iff_mem _ _).mp (h2 k hk)
  · intro h
    constructor
    · intro k hk; exact (contains_iff_mem _ _).mpr ((h k).mp hk)
    · intro k hk; exact (contains_iff_mem _ _).mpr ((h k).mpr hk)

theorem needs_update_self (d : Checksums) (h : NodupKeys d) : needs_update d d = false := by
  unfold needs_update
  rw [if_neg]
  · rw [List.any_eq_false]
    intro p hp
    rw [dictGet_self d h p hp]
    simp
  · rw [Bool.not_eq_true', Bool.not_eq_false]
    exact (keySetEq_iff d d).mpr fun k => Iff.rfl


/-! ### C1: the change detector -/

/-- C1: for every run that parses the module, the change detector reports
`needs_regeneration = true` exactly when the set of current keys differs
from the set of previously persisted keys, or some key present in both maps
to different hash values; a key present in both with an unchanged hash
contributes no signal. -/
theorem claim_C1_change_detector (current previous : Checksums)
    (hc : NodupKeys current) (_hprev : NodupKeys previous) :
    needs_update current previous = true ↔
      (¬ ∀ k, k ∈ current.map (·.1) ↔ k ∈ previous.map (·.1)) ∨
      ∃ k v w, dictGet current k = some v ∧ dictGet previous k = some w ∧ v ≠ w := by
  unfold needs_update
  by_cases hks : keySetEq current previous = true
  · have hkeys := (keySetEq_iff _ _).mp hks
    simp only [hks, Bool.not_true, Bool.false_eq_true, if_false]
    rw [List.any_eq_true]
    constructor
    · rintro ⟨p, hpmem, hpneq⟩
      have hcur : dictGet current p.1 = some p.2 := dictGet_self _ hc p hpmem
      have hkey : p.1 ∈ previous.map (·.1) := (hkeys p.1).mp (List.mem_map_of_mem _ hpmem)
      rcases (dictGet_some_iff_mem_keys _ _).mpr hkey with ⟨w, hw⟩
      refine Or.inr ⟨p.1, p.2, w, hcur, hw, ?_⟩
      intro hvw
      rw [hvw] at hpneq
      simp [hw] at hpneq
    · rintro (hne | ⟨k, v, w, hv, hw, hvw⟩)
      · exact absurd hkeys hne
      · refine ⟨(k, v), dictGet_mem _ _ _ hv, ?_⟩
        simp only [hw]
        simp
        exact fun h => hvw h.symm
  · have h1 : (!keySetEq current previous) = true := by simp [hks]
    simp only [h1, if_true]
    constructor
    · intro _
      exact Or.inl fun hall => hks ((keySetEq_iff _ _).mpr hall)
    · intro _
      trivial

/-- C1 witness: the detector applied to two concrete dictionaries with
equal key sets and one differing hash. -/
theorem claim_C1_witness :
    needs_update [("a", "1"), ("b", "2")] [("b", "2"), ("a", "9")] = true ↔
      (¬ ∀ k, k ∈ ([("a", "1"), ("b", "2")] : Checksums).map (·.1) ↔
          k ∈ ([("b", "2"), ("a", "9")] : Checksums).map (·.1)) ∨
      ∃ k v w, dictGet [("a", "1"), ("b", "2")] k = some v ∧
        dictGet [("b", "2"), ("a", "9")] k = some w ∧ v ≠ w :=
  claim_C1_change_detector _ _ (by unfold NodupKeys; decide) (by unfold NodupKeys; decide)

/-! ### C3: the fingerprint keys of the example scenario -/

/-- C3 counterexample: after the first run on the Greeter module the
persisted fingerprint record has three keys, not two — `ast.walk` also
visits `__init__`. -/
theorem claim_C3_counterexample :
    (runPipeline greeterModule [] false ⟨[], false⟩).2.prevChecksums.map (·.1) =
      ["class_Greeter", "__init__", "greet"] ∧
    ((runPipeline greeterModule [] false ⟨[], false⟩).2.prevChecksums.map (·.1)).length ≠ 2 := by
  have h : (runPipeline greeterModule [] false ⟨[], false⟩).2.prevChecksums.map (·.1) =
      ["class_Greeter", "__init__", "greet"] := rfl
  refine ⟨h, ?_⟩
  rw [h]
  decide

/-- C3 as amended: the fingerprint set persisted after the first run on the
Greeter module contains exactly three keys — `class_Greeter`, `__init__`
and `greet`. -/
theorem claim_C3_fingerprint_keys :
    ((runPipeline greeterModule [] false ⟨[], false⟩).2.prevChecksums.map (·.1)).length = 3 ∧
    ∀ k, k ∈ (runPipeline greeterModule [] false ⟨[], false⟩).2.prevChecksums.map (·.1) ↔
      (k = "class_Greeter" ∨ k = "__init__" ∨ k = "greet") := by
  have h : (runPipeline greeterModule [] false ⟨[], false⟩).2.prevChecksums.map (·.1) =
      ["class_Greeter", "__init__", "greet"] := rfl
  rw [h]
  refine ⟨rfl, ?_⟩
  intro k
  simp

/-! ### C4: qualified keys -/

/-- C4 counterexample: in a module with classes `A` and `B` that both
define a method `m`, four declarations are walked but only three entries
survive: the two methods share the key `m` and the later one overwrites the
earlier one's checksum. -/
theorem claim_C4_counterexample :
    (walkDecls twoClassModule).length = 4 ∧
    (buildChecksums twoClassModule).length = 3 ∧
    dictGet (buildChecksums twoClassModule) "m" =
      some (calculate_node_checksum (.funcDecl methodB)) ∧
    calculate_node_checksum (.funcDecl methodA) ≠ calculate_node_checksum (.funcDecl methodB) := by
  refine ⟨rfl, rfl, rfl, ?_⟩
  decide

/-- C4 as amended: a function and a class of the same name do get distinct
keys (the `class_` prefix), but two function declarations get the same key
exactly when they have the same name, so same-named methods of different
classes collide. -/
theorem claim_C4_qualified_keys :
    (∀ (f : FunctionDef) (c : ClassDef), f.name = c.name →
        nodeKey (.funcDecl f) ≠ nodeKey (.classDecl c)) ∧
    (∀ f g : FunctionDef, nodeKey (.funcDecl f) = nodeKey (.funcDecl g) ↔ f.name = g.name) := by
  constructor
  · intro f c hname heq
    simp only [nodeKey] at heq
    rw [hname] at heq
    have hlen := congrArg String.length heq
    rw [String.length_append] at hlen
    have h6 : ("class_" : String).length = 6 := rfl
    rw [h6] at hlen
    omega
  · intro f g
    simp [nodeKey]

/-- C4 witness: the method `m` and a class named `m` get distinct keys. -/
theorem claim_C4_witness : nodeKey (.funcDecl methodA) ≠ nodeKey (.classDecl mClass) :=
  claim_C4_qualified_keys.1 methodA mClass rfl

/-! ### C5: unconditional persistence -/

/-- C5: on a module whose only declaration is a top-level function, a run
that parses successfully (here with the output file present and a stale
baseline) aborts with the `NameError` before reaching the save, so the
freshly computed fingerprint record is not persisted. -/
theorem claim_C5_unpersisted_crash :
    generate_help_content funcOnlyModule [] [] true false = .error nameErrorMsg ∧
    (generate_help_content funcOnlyModule [] [] true false).persisted = none :=
  ⟨rfl, rfl⟩

/-! ### C6: the short-circuit -/

/-- C6 counterexample: on an empty module with no prior state and no output
file, nothing changed (`needs_update` is `false`) and the output file does
not exist, yet the run returns the empty document — through the rendering
path, not the skip: an empty returned document does not imply the
short-circuit condition. -/
theorem claim_C6_counterexample :
    needs_update (buildChecksums ([] : PyModule)) [] = false ∧
    generate_help_content ([] : PyModule) [] [] false false = .generated "" [] :=
  ⟨rfl, rfl⟩

/-- C6 as amended: the renderer is short-circuited exactly when
`needs_regeneration` is false and the rendered output file exists; in
particular, with no output file the renderer runs even when every
fingerprint matches (first-run bootstrap), though the document it renders
may itself be empty. -/
theorem claim_C6_skip_condition :
    ∀ (m : PyModule) (excl : List String) (prev : Checksums) (ex asep : Bool),
      (generate_help_content m excl prev ex asep).isSkipped = true ↔
        (needs_update (buildChecksums m) prev = false ∧ ex = true) := by
  intro m excl prev ex asep
  unfold generate_help_content
  cases hb : needs_update (buildChecksums m) prev
  · cases hex : ex
    · cases hrd : renderDoc m excl asep with
      | error e => simp [hb, hrd, RunOutcome.isSkipped]
      | ok doc => simp [hb, hrd, RunOutcome.isSkipped]
    · simp [hb, RunOutcome.isSkipped]
  · cases hrd : renderDoc m excl asep with
    | error e => simp [hb, hrd, RunOutcome.isSkipped]
    | ok doc => simp [hb, hrd, RunOutcome.isSkipped]


/-! ### C10: the unbound receiver name -/

theorem renderStmts_error_before_class (excl : List String) (asep : Bool) :
    ∀ (pre : List Stmt), (∀ s ∈ pre, isClassStmt s = false) →
    ∀ (f : FunctionDef) (rest : List Stmt), f.name ∉ excl →
      renderStmts excl asep none (pre ++ Stmt.functionDef f :: rest) = .error nameErrorMsg := by
  intro pre
  induction pre with
  | nil =>
      intro _ f rest hf
      simp only [List.nil_append]
      unfold renderStmts
      rw [if_neg hf]
  | cons s pre ih =>
      intro hpre f rest hf
      have hs := hpre s (List.mem_cons_self s pre)
      have hpre' : ∀ t ∈ pre, isClassStmt t = false :=
        fun t ht => hpre t (List.mem_cons_of_mem s ht)
      cases s with
      | classDef c => simp [isClassStmt] at hs
      | other =>
          simp only [List.cons_append]
          unfold renderStmts
          exact ih hpre' f rest hf
      | functionDef g =>
          simp only [List.cons_append]
          unfold renderStmts
          by_cases hg : g.name ∈ excl
          · rw [if_pos hg]
            exact ih hpre' f rest hf
          · rw [if_neg hg]
  
/-- C10: when regeneration is needed and the module's top-level sequence
has a non-excluded function with no class definition anywhere before it,
content generation aborts with the unbound-variable error instead of
producing a document: `class_name` is only bound by an earlier class. -/
theorem claim_C10_unbound_class_name (pre rest : List Stmt) (f : FunctionDef)
    (excl : List String) (prev : Checksums) (ex asep : Bool)
    (hpre : ∀ s ∈ pre, isClassStmt s = false) (hf : f.name ∉ excl)
    (hneeds : needs_update (buildChecksums (pre ++ Stmt.functionDef f :: rest)) prev = true) :
    generate_help_content (pre ++ Stmt.functionDef f :: rest) excl prev ex asep =
      .error nameErrorMsg := by
  unfold generate_help_content
  rw [hneeds]
  simp only [Bool.not_true, Bool.false_and, Bool.false_eq_true, if_false]
  unfold renderDoc
  rw [renderStmts_error_before_class excl asep pre hpre f rest hf]

/-- C10 witness: the single-function module crashes on its first run. -/
theorem claim_C10_witness :
    generate_help_content funcOnlyModule [] [] false false = .error nameErrorMsg :=
  claim_C10_unbound_class_name [] [] mainFunc [] [] false false
    (by intro s hs; cases hs) (by decide) (by decide)

/-! ### C7: idempotence of the pipeline -/

theorem generate_skipped_inv (m : PyModule) (excl : List String) (prev : Checksums)
    (ex asep : Bool) (c : Checksums)
    (h : generate_help_content m excl prev ex asep = .skipped c) :
    c = buildChecksums m ∧ needs_update (buildChecksums m) prev = false ∧ ex = true := by
  unfold generate_help_content at h
  cases hb : needs_update (buildChecksums m) prev
  · cases hex : ex
    · rw [hb, hex] at h
      simp only [Bool.not_false, Bool.true_and, Bool.false_eq_true, if_false] at h
      cases hrd : renderDoc m excl asep with
      | error e => rw [hrd] at h; cases h
      | ok doc => rw [hrd] at h; cases h
    · rw [hb, hex] at h
      simp only [Bool.not_false, Bool.true_and, if_true, RunOutcome.skipped.injEq] at h
      exact ⟨h.symm, rfl, rfl⟩
  · rw [hb] at h
    simp only [Bool.not_true, Bool.false_and, Bool.false_eq_true, if_false] at h
    cases hrd : renderDoc m excl asep with
    | error e => rw [hrd] at h; cases h
    | ok doc => rw [hrd] at h; cases h

theorem generate_generated_inv (m : PyModule) (excl : List String) (prev : Checksums)
    (ex asep : Bool) (doc : String) (c : Checksums)
    (h : generate_help_content m excl prev ex asep = .generated doc c) :
    c = buildChecksums m ∧ renderDoc m excl asep = .ok doc := by
  unfold generate_help_content at h
  by_cases hcond : (!needs_update (buildChecksums m) prev && ex) = true
  · rw [if_pos hcond] at h
    cases h
  · rw [if_neg hcond] at h
    cases hrd : renderDoc m excl asep with
    | error e => rw [hrd] at h; cases h
    | ok d =>
        rw [hrd] at h
        cases h
        exact ⟨rfl, rfl⟩

/-- C7: running the pipeline twice on an unchanged module — given that the
first run completes (does not raise) — makes the second run's
`needs_regeneration` false, the second run also completes, and the
persisted fingerprint dictionary is identical after both runs. -/
theorem claim_C7_idempotence (m : PyModule) (excl : List String) (asep : Bool) (s0 : FsState)
    (h1 : (runPipeline m excl asep s0).1.isError = false) :
    needs_update (buildChecksums m) ((runPipeline m excl asep s0).2.prevChecksums) = false ∧
    (runPipeline m excl asep ((runPipeline m excl asep s0).2)).1.isError = false ∧
    (runPipeline m excl asep ((runPipeline m excl asep s0).2)).2.prevChecksums =
      (runPipeline m excl asep s0).2.prevChecksums := by
  have hself : needs_update (buildChecksums m) (buildChecksums m) = false :=
    needs_update_self _ (nodupKeys_buildChecksums m)
  cases hg : generate_help_content m excl s0.prevChecksums s0.outputExists asep with
  | error e =>
      exfalso
      rw [runPipeline, hg] at h1
      cases h1
  | skipped c =>
      obtain ⟨hc, _, hex⟩ := generate_skipped_inv m excl _ _ _ _ hg
      subst hc
      have hs1 : (runPipeline m excl asep s0).2 = ⟨buildChecksums m, s0.outputExists⟩ := by
        rw [runPipeline, hg]
      rw [hs1]
      refine ⟨hself, ?_, ?_⟩
      · rw [runPipeline]
        rw [show generate_help_content m excl (buildChecksums m) s0.outputExists asep =
              .skipped (buildChecksums m) by
            unfold generate_help_content
            rw [hself, hex]
            simp]
        rfl
      · rw [runPipeline]
        rw [show generate_help_content m excl (buildChecksums m) s0.outputExists asep =
              .skipped (buildChecksums m) by
            unfold generate_help_content
            rw [hself, hex]
            simp]
  | generated doc c =>
      obtain ⟨hc, hrd⟩ := generate_generated_inv m excl _ _ _ _ _ hg
      subst hc
      have hs1 : (runPipeline m excl asep s0).2 =
          ⟨buildChecksums m, s0.outputExists || !(doc == "")⟩ := by
        rw [runPipeline, hg]
      rw [hs1]
      cases hex2 : (s0.outputExists || !(doc == "")) with
      | true =>
          have hg2 : generate_help_content m excl (buildChecksums m) true asep =
              .skipped (buildChecksums m) := by
            unfold generate_help_content
            rw [hself]
            simp
          refine ⟨hself, ?_, ?_⟩
          · rw [runPipeline]
            simp only [hg2]
            rfl
          · rw [runPipeline]
            simp only [hg2]
      | false =>
          have hg2 : generate_help_content m excl (buildChecksums m) false asep =
              .generated doc (buildChecksums m) := by
            unfold generate_help_content
            rw [hself]
            simp only [Bool.not_false, Bool.and_false, Bool.false_eq_true, if_false]
            rw [hrd]
          refine ⟨hself, ?_, ?_⟩
          · rw [runPipeline]
            simp only [hg2]
            rfl
          · rw [runPipeline]
            simp only [hg2]

/-- C7 witness: two runs on the Greeter module starting from the empty
state. -/
theorem claim_C7_witness :
    needs_update (buildChecksums greeterModule)
      ((runPipeline greeterModule [] false ⟨[], false⟩).2.prevChecksums) = false ∧
    (runPipeline greeterModule [] false
      ((runPipeline greeterModule [] false ⟨[], false⟩).2)).1.isError = false ∧
    (runPipeline greeterModule [] false
      ((runPipeline greeterModule [] false ⟨[], false⟩).2)).2.prevChecksums =
      (runPipeline greeterModule [] false ⟨[], false⟩).2.prevChecksums :=
  claim_C7_idempotence greeterModule [] false ⟨[], false⟩ (by decide)


/-! ### C8: the table of contents -/

theorem classEntries_ne_nil (excl : List String) (asep : Bool) (c : ClassDef) :
    classEntries excl asep c ≠ [] := by
  unfold classEntries
  simp

theorem renderStmts_entries_empty (excl : List String) (asep : Bool) :
    ∀ (stmts : List Stmt) (cn cn' : Option String) (entries : List String),
      renderStmts excl asep cn stmts = .ok (cn', entries) →
      (entries = [] ↔ renderableB stmts excl = false) := by
  intro stmts
  induction stmts with
  | nil =>
      intro cn cn' entries h
      unfold renderStmts at h
      cases h
      simp [renderableB]
  | cons s rest ih =>
      intro cn cn' entries h
      cases s with
      | other =>
          unfold renderStmts at h
          rw [ih cn cn' entries h]
          simp [renderableB]
      | classDef c =>
          unfold renderStmts at h
          cases hr : renderStmts excl asep (some c.name) rest with
          | error e => rw [hr] at h; cases h
          | ok p =>
              rw [hr] at h
              cases h
              constructor
              · intro habs
                exact absurd (List.append_eq_nil.mp habs).1 (classEntries_ne_nil excl asep c)
              · intro habs
                simp [renderableB] at habs
      | functionDef f =>
          unfold renderStmts at h
          by_cases hf : f.name ∈ excl
          · rw [if_pos hf] at h
            rw [ih cn cn' entries h]
            simp [renderableB, hf]
          · rw [if_neg hf] at h
            cases cn with
            | none => cases h
            | some cls =>
                cases hr : renderStmts excl asep (some cls) rest with
                | error e => rw [hr] at h; cases h
                | ok p =>
                    rw [hr] at h
                    cases h
                    constructor
                    · intro habs; cases habs
                    · intro habs
                      simp [renderableB, hf] at habs

theorem renderDoc_ok_inv (m : PyModule) (excl : List String) (asep : Bool) (doc : String)
    (h : renderDoc m excl asep = .ok doc) :
    ∃ cn' entries, renderStmts excl asep none m = .ok (cn', entries) ∧
      doc = joinSep "\n\n"
        (if entries = [] then entries else joinSep "\n" (tocOf m excl) :: entries) := by
  unfold renderDoc at h
  cases hr : renderStmts excl asep none m with
  | error e => rw [hr] at h; cases h
  | ok p =>
      obtain ⟨cn2, es2⟩ := p
      rw [hr] at h
      cases h
      exact ⟨cn2, es2, rfl, rfl⟩

theorem isPrefixOf_data_append (p r : String) : p.data.isPrefixOf (p ++ r).data = true := by
  rw [List.isPrefixOf_iff_prefix, String.data_append]
  exact List.prefix_append _ _

theorem isPrefixOf_data_extend (p s t : String) (h : p.data.isPrefixOf s.data = true) :
    p.data.isPrefixOf (s ++ t).data = true := by
  rw [List.isPrefixOf_iff_prefix] at *
  rw [String.data_append]
  exact h.trans (List.prefix_append _ _)

/-- C8 counterexample: with `Hidden` in the exclusion set, the generated
document's Classes list still carries the link to the excluded class
`Hidden`. -/
theorem claim_C8_counterexample :
    generate_help_content hiddenModule ["Hidden"] [] false false =
      .generated
        ("<a id=\"top\"></a>\n\n## Table of Contents\n\n### Classes:\n\n" ++
         "[`Hidden`](#class-hidden)" ++
         "\n\n\n\n<a id=\"class-hidden\"></a>\n\n\n## Class: `Hidden`\n")
        [("class_Hidden", "ClassDef:Hidden::bases::decorators::")] ∧
    "Hidden" ∈ (["Hidden"] : List String) := by
  refine ⟨?_, by decide⟩
  decide

/-- C8 as amended: the table of contents lists every top-level class even
when its name is excluded, and exactly the non-excluded top-level
functions; the table of contents is prepended (the document starts with the
`top` anchor) exactly when at least one renderable unit exists — a
top-level class, or a non-excluded top-level function — and the document
is empty otherwise. -/
theorem claim_C8_table_of_contents :
    (∀ (m : PyModule) (c : ClassDef), Stmt.classDef c ∈ m →
        ("[`" ++ c.name ++ "`](#class-" ++ pyLower c.name ++ ")") ∈ tocClassLinks m) ∧
    (∀ (m : PyModule) (excl : List String) (f : FunctionDef),
        Stmt.functionDef f ∈ m → f.name ∉ excl →
        ("[`" ++ f.name ++ "`](#func-" ++ pyLower f.name ++ ")") ∈ tocFuncLinks m excl) ∧
    (∀ (m : PyModule) (excl : List String) (l : String), l ∈ tocFuncLinks m excl →
        ∃ f : FunctionDef, Stmt.functionDef f ∈ m ∧ f.name ∉ excl ∧
          l = "[`" ++ f.name ++ "`](#func-" ++ pyLower f.name ++ ")") ∧
    (∀ (m : PyModule) (excl : List String) (prev : Checksums) (ex asep : Bool)
        (doc : String) (saved : Checksums),
        generate_help_content m excl prev ex asep = .generated doc saved →
        ((doc = "" ↔ renderableB m excl = false) ∧
         (renderableB m excl = true →
            (anchorLine "top").data.isPrefixOf doc.data = true))) := by
  refine ⟨?_, ?_, ?_, ?_⟩
  · intro m c hc
    exact List.mem_filterMap.mpr ⟨Stmt.classDef c, hc, rfl⟩
  · intro m excl f hf hnx
    refine List.mem_filterMap.mpr ⟨Stmt.functionDef f, hf, ?_⟩
    simp [hnx]
  · intro m excl l hl
    rcases List.mem_filterMap.mp hl with ⟨s, hs, hsl⟩
    cases s with
    | classDef c => cases hsl
    | other => cases hsl
    | functionDef f =>
        by_cases hf : f.name ∈ excl
        · simp [hf] at hsl
        · simp [hf] at hsl
          exact ⟨f, hs, hf, hsl.symm⟩
  · intro m excl prev ex asep doc saved hgen
    obtain ⟨-, hrd⟩ := generate_generated_inv m excl prev ex asep doc saved hgen
    obtain ⟨cn', entries, hrs, hdoc⟩ := renderDoc_ok_inv m excl asep doc hrd
    have hiff := renderStmts_entries_empty excl asep m none cn' entries hrs
    cases entries with
    | nil =>
        have hren : renderableB m excl = false := hiff.mp rfl
        constructor
        · rw [hdoc]
          simp [joinSep, hren]
        · intro habs
          rw [habs] at hren
          cases hren
    | cons e es =>
        have hren : renderableB m excl = true := by
          cases hre : renderableB m excl with
          | false => exact absurd (hiff.mpr hre) (by simp)
          | true => rfl
        have hne : ¬ ((e :: es : List String) = []) := by simp
        rw [if_neg hne] at hdoc
        have htoc : joinSep "\n" (tocOf m excl) =
            anchorLine "top" ++ "\n" ++
              joinSep "\n" ("## Table of Contents\n" ::
                ((if tocClassLinks m = [] then [] else
                    ["### Classes:\n", joinSep " | " (tocClassLinks m), "\n"]) ++
                 (if tocFuncLinks m excl = [] then [] else
                    ["### Functions:\n", joinSep " | " (tocFuncLinks m excl), "\n"]))) := by
          rfl
        have hpre : (anchorLine "top").data.isPrefixOf doc.data = true := by
          rw [hdoc]
          show (anchorLine "top").data.isPrefixOf
            (joinSep "\n\n" (joinSep "\n" (tocOf m excl) :: e :: es)).data = true
          have hjoin : joinSep "\n\n" (joinSep "\n" (tocOf m excl) :: e :: es) =
              joinSep "\n" (tocOf m excl) ++ "\n\n" ++ joinSep "\n\n" (e :: es) := rfl
          rw [hjoin, htoc]
          apply isPrefixOf_data_extend
          apply isPrefixOf_data_extend
          apply isPrefixOf_data_extend
          exact isPrefixOf_data_append _ _
        refine ⟨?_, fun _ => hpre⟩
        constructor
        · intro hdoc0
          exfalso
          rcases List.isPrefixOf_iff_prefix.mp hpre with ⟨r, hr⟩
          have h0 : (anchorLine "top").data ++ r = [] := by
            rw [hr, hdoc0]
          exact absurd (List.append_eq_nil.mp h0).1 (by decide)
        · intro hf
          rw [hf] at hren
          cases hren

/-- C8 witness: the class link of `Hidden` is in the Classes list of its
module's table of contents. -/
theorem claim_C8_witness :
    ("[`" ++ hiddenClass.name ++ "`](#class-" ++ pyLower hiddenClass.name ++ ")") ∈
      tocClassLinks hiddenModule :=
  claim_C8_table_of_contents.1 hiddenModule hiddenClass (by decide)

/-! ### C9: usage examples -/

/-- C9: in every generated usage example the leading `self` receiver
parameter is dropped, and the call renders with empty parentheses when no
parameter remains, inline when exactly one remains, and one parameter per
indented line with the closing parenthesis on its own line when two or
more remain; for the Greeter scenario, the usage text for `greet` is the
receiver assignment, a blank line, and the empty-parenthesis call. -/
theorem claim_C9_usage_examples :
    (∀ (class_name name a : String) (rest : List String), cleanArg a = none →
        generate_usage_code class_name name (a :: rest) =
          usagePrelude class_name ++
            renderCallSpec (callReceiver class_name name) (rest.filterMap cleanArg)) ∧
    generate_usage_code "Greeter" "greet" ["self: Any"] =
      "self.greeter_obj = Greeter\n\nself.greeter_obj.greet()" ∧
    cleanArg "self: Any" = none := by
  refine ⟨?_, by decide, by decide⟩
  intro cn n a rest ha
  unfold generate_usage_code usagePrelude callReceiver renderCallSpec
  simp only [List.filterMap_cons, ha]
  cases h2 : rest.filterMap cleanArg with
  | nil =>
      by_cases hn : n = "__init__"
      · simp [hn, String.append_assoc]
      · simp [hn, String.append_assoc]
  | cons x xs =>
      cases xs with
      | nil =>
          by_cases hn : n = "__init__"
          · simp [hn, String.append_assoc]
          · simp [hn, String.append_assoc]
      | cons y ys =>
          by_cases hn : n = "__init__"
          · simp [hn, String.append_assoc]
          · simp [hn, String.append_assoc]

/-- C9 witness: the rendering rule applied to a method whose only
parameter is the receiver. -/
theorem claim_C9_witness :
    generate_usage_code "X" "go" ["self: Any"] =
      usagePrelude "X" ++
        renderCallSpec (callReceiver "X" "go") (([] : List String).filterMap cleanArg) :=
  claim_C9_usage_examples.1 "X" "go" "self: Any" [] (by decide)


/-! ### C2: character-level splitting lemmas -/

theorem append_sep_split (c : Char) :
    ∀ (a b x y : List Char), c ∉ a → c ∉ b → a ++ c :: x = b ++ c :: y → a = b ∧ x = y := by
  intro a
  induction a with
  | nil =>
      intro b x y _ hb h
      cases b with
      | nil =>
          injection h with _ h2
          exact ⟨rfl, h2⟩
      | cons d ds =>
          exfalso
          simp only [List.nil_append, List.cons_append] at h
          injection h with h1 _
          exact hb (List.mem_cons.mpr (Or.inl h1))
  | cons e es ih =>
      intro b x y ha hb h
      cases b with
      | nil =>
          exfalso
          simp only [List.cons_append, List.nil_append] at h
          injection h with h1 _
          exact ha (List.mem_cons.mpr (Or.inl h1.symm))
      | cons d ds =>
          simp only [List.cons_append] at h
          injection h with h1 h2
          have hrec := ih ds x y (fun hc => ha (List.mem_cons_of_mem e hc))
            (fun hc => hb (List.mem_cons_of_mem d hc)) h2
          refine ⟨?_, hrec.2⟩
          rw [h1, hrec.1]

theorem escQuote_cons_esc (q c : Char) (cs : List Char) (h : c = '\\' ∨ c = q) :
    escQuote q (c :: cs) = '\\' :: c :: escQuote q cs := by
  rcases h with rfl | rfl
  · simp [escQuote]
  · by_cases hb : c = '\\'
    · subst hb; simp [escQuote]
    · simp [escQuote, hb]

theorem escQuote_cons_plain (q c : Char) (cs : List Char) (h1 : ¬c = '\\') (h2 : ¬c = q) :
    escQuote q (c :: cs) = c :: escQuote q cs := by
  simp [escQuote, h1, h2]

theorem escQuote_split (q : Char) (hq : q ≠ '\\') :
    ∀ (a b x y : List Char),
      escQuote q a ++ q :: x = escQuote q b ++ q :: y → a = b ∧ x = y := by
  intro a
  induction a with
  | nil =>
      intro b x y h
      cases b with
      | nil =>
          simp only [escQuote, List.nil_append] at h
          injection h with _ h2
          exact ⟨rfl, h2⟩
      | cons d ds =>
          exfalso
          rw [show escQuote q [] = [] from rfl, List.nil_append] at h
          by_cases hd : d = '\\' ∨ d = q
          · rw [escQuote_cons_esc q d ds hd] at h
            simp only [List.cons_append] at h
            injection h with h1 _
            exact hq h1
          · push_neg at hd
            rw [escQuote_cons_plain q d ds hd.1 hd.2] at h
            simp only [List.cons_append] at h
            injection h with h1 _
            exact hd.2 h1.symm
  | cons e es ih =>
      intro b x y h
      cases b with
      | nil =>
          exfalso
          rw [show escQuote q [] = [] from rfl, List.nil_append] at h
          by_cases he : e = '\\' ∨ e = q
          · rw [escQuote_cons_esc q e es he] at h
            simp only [List.cons_append] at h
            injection h with h1 _
            exact hq h1.symm
          · push_neg at he
            rw [escQuote_cons_plain q e es he.1 he.2] at h
            simp only [List.cons_append] at h
            injection h with h1 _
            exact he.2 h1
      | cons d ds =>
          by_cases he : e = '\\' ∨ e = q
          · by_cases hd : d = '\\' ∨ d = q
            · rw [escQuote_cons_esc q e es he, escQuote_cons_esc q d ds hd] at h
              simp only [List.cons_append] at h
              injection h with _ h2
              injection h2 with h2a h2b
              have hrec := ih ds x y h2b
              refine ⟨?_, hrec.2⟩
              rw [h2a, hrec.1]
            · push_neg at hd
              exfalso
              rw [escQuote_cons_esc q e es he, escQuote_cons_plain q d ds hd.1 hd.2] at h
              simp only [List.cons_append] at h
              injection h with h1 _
              exact hd.1 h1.symm
          · push_neg at he
            by_cases hd : d = '\\' ∨ d = q
            · exfalso
              rw [escQuote_cons_plain q e es he.1 he.2, escQuote_cons_esc q d ds hd] at h
              simp only [List.cons_append] at h
              injection h with h1 _
              exact he.1 h1
            · push_neg at hd
              rw [escQuote_cons_plain q e es he.1 he.2,
                escQuote_cons_plain q d ds hd.1 hd.2] at h
              simp only [List.cons_append] at h
              injection h with h1 h2
              have hrec := ih ds x y h2
              refine ⟨?_, hrec.2⟩
              rw [h1, hrec.1]

theorem pyQuote_ne_backslash (s : String) : pyQuote s ≠ '\\' := by
  unfold pyQuote
  split
  · decide
  · decide

theorem pyStrRepr_split (s t : String) (x y : List Char)
    (h : (pyStrRepr s).data ++ x = (pyStrRepr t).data ++ y) : s = t ∧ x = y := by
  unfold pyStrRepr at h
  simp only [String.data] at h
  rw [List.cons_append, List.cons_append] at h
  injection h with h1 h2
  rw [List.append_assoc, List.append_assoc, List.singleton_append, List.singleton_append] at h2
  rw [h1] at h2
  have hrec := escQuote_split (pyQuote t) (pyQuote_ne_backslash t) s.data t.data x y h2
  exact ⟨String.ext hrec.1, hrec.2⟩

theorem commaJoin_cons_cons (a b : String) (rest : List String) :
    commaJoin (a :: b :: rest) = a ++ ", " ++ commaJoin (b :: rest) := rfl

theorem pyQuote_cases (s : String) : pyQuote s = '\'' ∨ pyQuote s = '"' := by
  unfold pyQuote
  split
  · exact Or.inr rfl
  · exact Or.inl rfl

theorem pyStrRepr_data_cons (s : String) :
    ∃ r : List Char, (pyStrRepr s).data = pyQuote s :: r := by
  unfold pyStrRepr
  exact ⟨_, rfl⟩

theorem commaJoin_map_data_cons (s z : String) (zs : List String) :
    (commaJoin (s :: z :: zs)).data = s.data ++ ',' :: ' ' :: (commaJoin (z :: zs)).data := by
  rw [commaJoin_cons_cons]
  rw [String.data_append, String.data_append]
  rw [List.append_assoc]
  rfl

theorem pyListRepr_inner_split :
    ∀ (l1 l2 : List String) (x y : List Char),
      (commaJoin (l1.map pyStrRepr)).data ++ ']' :: x =
      (commaJoin (l2.map pyStrRepr)).data ++ ']' :: y → l1 = l2 ∧ x = y := by
  intro l1
  induction l1 with
  | nil =>
      intro l2 x y h
      cases l2 with
      | nil =>
          simp only [List.map_nil] at h
          injection h with _ h2
          exact ⟨rfl, h2⟩
      | cons s2 t2 =>
          exfalso
          simp only [List.map_nil, List.map_cons] at h
          have hshape : ∃ r : List Char,
              (commaJoin (pyStrRepr s2 :: t2.map pyStrRepr)).data =
                pyQuote s2 :: r := by
            rcases pyStrRepr_data_cons s2 with ⟨r0, hr0⟩
            cases ht : t2.map pyStrRepr with
            | nil =>
                refine ⟨r0, ?_⟩
                show (commaJoin [pyStrRepr s2]).data = pyQuote s2 :: r0
                rw [show commaJoin [pyStrRepr s2] = pyStrRepr s2 from rfl, hr0]
            | cons z zs =>
                rw [commaJoin_map_data_cons, hr0]
                exact ⟨_, rfl⟩
          rcases hshape with ⟨r, hr⟩
          rw [hr] at h
          rw [show (commaJoin ([] : List String)).data = [] from rfl, List.nil_append] at h
          injection h with h1 _
          rcases pyQuote_cases s2 with hq | hq <;> rw [hq] at h1 <;> exact absurd h1 (by decide)
  | cons s1 t1 ih =>
      intro l2 x y h
      cases l2 with
      | nil =>
          exfalso
          simp only [List.map_nil, List.map_cons] at h
          have hshape : ∃ r : List Char,
              (commaJoin (pyStrRepr s1 :: t1.map pyStrRepr)).data =
                pyQuote s1 :: r := by
            rcases pyStrRepr_data_cons s1 with ⟨r0, hr0⟩
            cases ht : t1.map pyStrRepr with
            | nil =>
                refine ⟨r0, ?_⟩
                show (commaJoin [pyStrRepr s1]).data = pyQuote s1 :: r0
                rw [show commaJoin [pyStrRepr s1] = pyStrRepr s1 from rfl, hr0]
            | cons z zs =>
                rw [commaJoin_map_data_cons, hr0]
                exact ⟨_, rfl⟩
          rcases hshape with ⟨r, hr⟩
          rw [hr] at h
          rw [show (commaJoin ([] : List String)).data = [] from rfl, List.nil_append] at h
          injection h with h1 _
          rcases pyQuote_cases s1 with hq | hq <;> rw [hq] at h1 <;> exact absurd h1 (by decide)
      | cons s2 t2 =>
          cases t1 with
          | nil =>
              cases t2 with
              | nil =>
                  simp only [List.map_cons, List.map_nil] at h
                  have h' : (pyStrRepr s1).data ++ ']' :: x =
                      (pyStrRepr s2).data ++ ']' :: y := h
                  obtain ⟨hs, htail⟩ := pyStrRepr_split s1 s2 _ _ h'
                  injection htail with _ h2
                  exact ⟨by rw [hs], h2⟩
              | cons z2 zs2 =>
                  exfalso
                  simp only [List.map_cons, List.map_nil] at h
                  rw [commaJoin_map_data_cons] at h
                  rw [show commaJoin [pyStrRepr s1] = pyStrRepr s1 from rfl] at h
                  rw [List.append_assoc, List.cons_append, List.cons_append] at h
                  obtain ⟨-, htail⟩ := pyStrRepr_split s1 s2 _ _ h
                  injection htail with h1 _
                  exact absurd h1 (by decide)
          | cons z1 zs1 =>
              cases t2 with
              | nil =>
                  exfalso
                  simp only [List.map_cons, List.map_nil] at h
                  rw [commaJoin_map_data_cons] at h
                  rw [show commaJoin [pyStrRepr s2] = pyStrRepr s2 from rfl] at h
                  rw [List.append_assoc, List.cons_append, List.cons_append] at h
                  obtain ⟨-, htail⟩ := pyStrRepr_split s1 s2 _ _ h
                  injection htail with h1 _
                  exact absurd h1 (by decide)
              | cons z2 zs2 =>
                  simp only [List.map_cons] at h
                  rw [commaJoin_map_data_cons, commaJoin_map_data_cons] at h
                  rw [List.append_assoc, List.append_assoc] at h
                  obtain ⟨hs, htail⟩ := pyStrRepr_split s1 s2 _ _ h
                  injection htail with _ htail
                  injection htail with _ htail
                  have hfin := ih (z2 :: zs2) x y (by
                    simp only [List.map_cons]
                    exact htail)
                  exact ⟨by rw [hs, hfin.1], hfin.2⟩

theorem pyListRepr_data (l : List String) :
    (pyListRepr l).data = '[' :: ((commaJoin (l.map pyStrRepr)).data ++ [']']) := by
  unfold pyListRepr
  rw [String.data_append, String.data_append]
  rfl

theorem pyListRepr_split (l1 l2 : List String) (x y : List Char)
    (h : (pyListRepr l1).data ++ x = (pyListRepr l2).data ++ y) : l1 = l2 ∧ x = y := by
  rw [pyListRepr_data, pyListRepr_data] at h
  rw [List.cons_append, List.cons_append] at h
  injection h with _ h2
  rw [List.append_assoc, List.append_assoc] at h2
  rw [List.singleton_append, List.singleton_append] at h2
  exact pyListRepr_inner_split l1 l2 x y h2


/-! ### C2: the canonical form of the signature -/

theorem star_append_ne_empty (p v : String) (hp : p.data ≠ []) : (p ++ v) ≠ "" := by
  intro h
  have hd := congrArg String.data h
  rw [String.data_append] at hd
  exact hp (List.append_eq_nil.mp hd).1

theorem commaJoin_singleton (x : String) : commaJoin [x] = x := rfl

theorem commaJoin_append (l1 l2 : List String) (h1 : l1 ≠ []) (h2 : l2 ≠ []) :
    commaJoin (l1 ++ l2) = commaJoin l1 ++ ", " ++ commaJoin l2 := by
  induction l1 with
  | nil => exact absurd rfl h1
  | cons x xs ih =>
      cases xs with
      | nil =>
          cases l2 with
          | nil => exact absurd rfl h2
          | cons y ys =>
              show commaJoin (x :: y :: ys) = commaJoin [x] ++ ", " ++ commaJoin (y :: ys)
              rw [commaJoin_cons_cons, commaJoin_singleton]
      | cons x2 xs2 =>
          have ihh := ih (by simp)
          have hL : commaJoin ((x :: x2 :: xs2) ++ l2) =
              x ++ ", " ++ commaJoin ((x2 :: xs2) ++ l2) := rfl
          rw [hL, ihh, commaJoin_cons_cons]
          simp [String.append_assoc]

theorem commaJoin_compat_append (p1 t1 p2 t2 : List String)
    (c1 : commaJoin p1 = commaJoin t1) (e1 : p1 = [] ↔ t1 = [])
    (c2 : commaJoin p2 = commaJoin t2) (e2 : p2 = [] ↔ t2 = []) :
    commaJoin (p1 ++ p2) = commaJoin (t1 ++ t2) ∧ (p1 ++ p2 = [] ↔ t1 ++ t2 = []) := by
  by_cases h1 : p1 = []
  · have ht1 : t1 = [] := e1.mp h1
    subst h1; subst ht1
    simp only [List.nil_append]
    exact ⟨c2, e2⟩
  · have ht1 : t1 ≠ [] := fun h => h1 (e1.mpr h)
    by_cases h2 : p2 = []
    · have ht2 : t2 = [] := e2.mp h2
      subst h2; subst ht2
      simp only [List.append_nil]
      constructor
      · exact c1
      · exact e1
    · have ht2 : t2 ≠ [] := fun h => h2 (e2.mpr h)
      rw [commaJoin_append p1 p2 h1 h2, commaJoin_append t1 t2 ht1 ht2, c1, c2]
      refine ⟨rfl, ?_⟩
      constructor
      · intro h; exact absurd ((List.append_eq_nil.mp h).1) h1
      · intro h; exact absurd ((List.append_eq_nil.mp h).1) ht1

theorem commaJoin_groups4 (p1 t1 p2 t2 p3 t3 p4 t4 : List String)
    (c1 : commaJoin p1 = commaJoin t1) (e1 : p1 = [] ↔ t1 = [])
    (c2 : commaJoin p2 = commaJoin t2) (e2 : p2 = [] ↔ t2 = [])
    (c3 : commaJoin p3 = commaJoin t3) (e3 : p3 = [] ↔ t3 = [])
    (c4 : commaJoin p4 = commaJoin t4) (e4 : p4 = [] ↔ t4 = []) :
    commaJoin (p1 ++ p2 ++ p3 ++ p4) = commaJoin (t1 ++ t2 ++ t3 ++ t4) := by
  have g34 := commaJoin_compat_append p3 t3 p4 t4 c3 e3 c4 e4
  have g234 := commaJoin_compat_append p2 t2 (p3 ++ p4) (t3 ++ t4) c2 e2 g34.1 g34.2
  have g1234 := commaJoin_compat_append p1 t1 (p2 ++ (p3 ++ p4)) (t2 ++ (t3 ++ t4))
    c1 e1 g234.1 g234.2
  rw [List.append_assoc, List.append_assoc, List.append_assoc, List.append_assoc]
  exact g1234.1

theorem sig_canonical (f : FunctionDef) :
    get_function_signature f =
      "(" ++ commaJoin (sigTokens f) ++ ")" ++
        sfxPart " defaults=" (f.args.defaults.map (·.dump)) ++
        sfxPart " kw_defaults=" ((f.args.kw_defaults.filterMap id).map (·.dump)) := by
  have hcore : commaJoin
      ((if f.args.args.map (·.name) = [] then []
        else [commaJoin (f.args.args.map (·.name))]) ++
       (if (match f.args.vararg with | some v => "*" ++ v | none => "") = "" then []
        else [match f.args.vararg with | some v => "*" ++ v | none => ""]) ++
       (if f.args.kwonlyargs.map (·.name) = [] then []
        else ["*", commaJoin (f.args.kwonlyargs.map (·.name))]) ++
       (if (match f.args.kwarg with | some k => "**" ++ k | none => "") = "" then []
        else [match f.args.kwarg with | some k => "**" ++ k | none => ""])) =
      commaJoin (sigTokens f) := by
    unfold sigTokens
    apply commaJoin_groups4
    · cases hA : f.args.args.map (·.name) with
      | nil => simp
      | cons a as => simp [commaJoin_singleton]
    · cases hA : f.args.args.map (·.name) with
      | nil => simp
      | cons a as => simp
    · cases hV : f.args.vararg with
      | none => simp
      | some v => simp [star_append_ne_empty "*" v (by decide)]
    · cases hV : f.args.vararg with
      | none => simp
      | some v => simp [star_append_ne_empty "*" v (by decide)]
    · cases hK : f.args.kwonlyargs.map (·.name) with
      | nil => simp
      | cons k ks => simp [commaJoin_cons_cons, commaJoin_singleton]
    · cases hK : f.args.kwonlyargs.map (·.name) with
      | nil => simp
      | cons k ks => simp
    · cases hW : f.args.kwarg with
      | none => simp
      | some w => simp [star_append_ne_empty "**" w (by decide)]
    · cases hW : f.args.kwarg with
      | none => simp
      | some w => simp [star_append_ne_empty "**" w (by decide)]
  unfold get_function_signature sfxPart
  simp only [hcore]
  by_cases hd : f.args.defaults.map (·.dump) = []
  · by_cases hk : (f.args.kw_defaults.filterMap id).map (·.dump) = []
    · simp only [if_pos hd, if_pos hk, String.append_empty]
    · simp only [if_pos hd, if_neg hk, String.append_empty, String.append_assoc]
  · by_cases hk : (f.args.kw_defaults.filterMap id).map (·.dump) = []
    · simp only [if_neg hd, if_pos hk, String.append_empty, String.append_assoc]
    · simp only [if_neg hd, if_neg hk, String.append_assoc]


/-! ### C2: injectivity of the token list -/

theorem sigTokens_sections (f : FunctionDef) :
    sigTokens f = f.args.args.map (·.name) ++ vtok f.args.vararg ++
      ktok (f.args.kwonlyargs.map (·.name)) ++ wtok f.args.kwarg := by
  unfold sigTokens vtok ktok wtok
  rfl

theorem sigNamesOk_parts (f : FunctionDef) (hf : sigNamesOk f = true) :
    (∀ a ∈ f.args.args, isIdentStr a.name = true) ∧
    (∀ v, f.args.vararg = some v → isIdentStr v = true) ∧
    (∀ a ∈ f.args.kwonlyargs, isIdentStr a.name = true) ∧
    (∀ k, f.args.kwarg = some k → isIdentStr k = true) := by
  unfold sigNamesOk at hf
  rw [Bool.and_eq_true, Bool.and_eq_true, Bool.and_eq_true] at hf
  obtain ⟨⟨⟨h1, h2⟩, h3⟩, h4⟩ := hf
  refine ⟨?_, ?_, ?_, ?_⟩
  · intro a ha; exact List.all_eq_true.mp h1 a ha
  · intro v hv; rw [hv] at h2; exact h2
  · intro a ha; exact List.all_eq_true.mp h3 a ha
  · intro k hk; rw [hk] at h4; exact h4

theorem ident_head (s : String) (hs : isIdentStr s = true) :
    ∃ c cs, s.data = c :: cs ∧ isIdentChar c = true := by
  unfold isIdentStr at hs
  rw [Bool.and_eq_true] at hs
  obtain ⟨hne, hall⟩ := hs
  cases hd : s.data with
  | nil => rw [hd] at hne; simp at hne
  | cons c cs =>
      refine ⟨c, cs, rfl, ?_⟩
      have := List.all_eq_true.mp hall c
      rw [hd] at this
      exact this (List.mem_cons_self c cs)

theorem ident_head_not_star (s : String) (hs : isIdentStr s = true) :
    ∀ cs, s.data ≠ '*' :: cs := by
  intro cs hcontra
  obtain ⟨c, cs2, hd, hc⟩ := ident_head s hs
  rw [hcontra] at hd
  injection hd with h1 _
  rw [← h1] at hc
  exact absurd hc (by decide)

theorem star_append_data (v : String) : ("*" ++ v).data = '*' :: v.data := by
  rw [String.data_append]
  rfl

theorem dstar_append_data (v : String) : ("**" ++ v).data = '*' :: '*' :: v.data := by
  rw [String.data_append]
  rfl

theorem star_append_inj (p v w : String) (h : p ++ v = p ++ w) : v = w := by
  have hd := congrArg String.data h
  rw [String.data_append, String.data_append] at hd
  exact String.ext (List.append_cancel_left hd)

theorem tail_head_star (V : Option String) (K : List String) (W : Option String)
    (hv : ∀ v, V = some v → isIdentStr v = true) (s : String) (rest : List String)
    (h : vtok V ++ ktok K ++ wtok W = s :: rest) : ∃ cs, s.data = '*' :: cs := by
  cases V with
  | some v =>
      simp only [vtok, List.cons_append, List.nil_append] at h
      injection h with h1 _
      exact ⟨v.data, by rw [← h1, star_append_data]⟩
  | none =>
      simp only [vtok, List.nil_append] at h
      cases K with
      | cons k ks =>
          simp only [ktok, List.cons_append] at h
          injection h with h1 _
          exact ⟨[], by rw [← h1]⟩
      | nil =>
          simp only [ktok, List.nil_append] at h
          cases W with
          | some w =>
              simp only [wtok] at h
              injection h with h1 _
              exact ⟨'*' :: w.data, by rw [← h1, dstar_append_data]⟩
          | none => simp only [wtok] at h; cases h

theorem wtok_inj (W1 W2 : Option String) (h : wtok W1 = wtok W2) : W1 = W2 := by
  cases W1 with
  | some w1 =>
      cases W2 with
      | some w2 =>
          simp only [wtok] at h
          injection h with h1 _
          rw [star_append_inj "**" w1 w2 h1]
      | none => simp only [wtok] at h; cases h
  | none =>
      cases W2 with
      | some w2 => simp only [wtok] at h; cases h
      | none => rfl

theorem identList_wtok_inj :
    ∀ (K1 K2 : List String) (W1 W2 : Option String),
      (∀ k ∈ K1, isIdentStr k = true) → (∀ k ∈ K2, isIdentStr k = true) →
      K1 ++ wtok W1 = K2 ++ wtok W2 → K1 = K2 ∧ W1 = W2 := by
  intro K1
  induction K1 with
  | nil =>
      intro K2 W1 W2 _ hk2 h
      cases K2 with
      | nil =>
          simp only [List.nil_append] at h
          exact ⟨rfl, wtok_inj W1 W2 h⟩
      | cons k2 t2 =>
          exfalso
          simp only [List.nil_append, List.cons_append] at h
          cases W1 with
          | none => simp only [wtok] at h; cases h
          | some w1 =>
              simp only [wtok] at h
              injection h with h1 _
              have := ident_head_not_star k2 (hk2 k2 (List.mem_cons_self k2 t2)) ('*' :: w1.data)
              rw [← h1, dstar_append_data] at this
              exact this rfl
  | cons k1 t1 ih =>
      intro K2 W1 W2 hk1 hk2 h
      cases K2 with
      | nil =>
          exfalso
          simp only [List.nil_append, List.cons_append] at h
          cases W2 with
          | none => simp only [wtok] at h; cases h
          | some w2 =>
              simp only [wtok] at h
              injection h with h1 _
              have := ident_head_not_star k1 (hk1 k1 (List.mem_cons_self k1 t1)) ('*' :: w2.data)
              rw [h1, dstar_append_data] at this
              exact this rfl
      | cons k2 t2 =>
          simp only [List.cons_append] at h
          injection h with h1 h2
          have hrec := ih t2 W1 W2 (fun k hk => hk1 k (List.mem_cons_of_mem k1 hk))
            (fun k hk => hk2 k (List.mem_cons_of_mem k2 hk)) h2
          exact ⟨by rw [h1, hrec.1], hrec.2⟩

theorem kwTail_inj (K1 K2 : List String) (W1 W2 : Option String)
    (hk1 : ∀ k ∈ K1, isIdentStr k = true) (hk2 : ∀ k ∈ K2, isIdentStr k = true)
    (h : ktok K1 ++ wtok W1 = ktok K2 ++ wtok W2) : K1 = K2 ∧ W1 = W2 := by
  cases K1 with
  | nil =>
      cases K2 with
      | nil =>
          simp only [ktok, List.nil_append] at h
          exact ⟨rfl, wtok_inj W1 W2 h⟩
      | cons k2 t2 =>
          exfalso
          simp only [ktok, List.nil_append, List.cons_append] at h
          cases W1 with
          | none => simp only [wtok] at h; cases h
          | some w1 =>
              simp only [wtok] at h
              injection h with h1 _
              have hd := congrArg String.data h1
              rw [dstar_append_data] at hd
              rw [show ("*" : String).data = ['*'] from rfl] at hd
              injection hd with _ hd2
              cases hd2
  | cons k1 t1 =>
      cases K2 with
      | nil =>
          exfalso
          simp only [ktok, List.nil_append, List.cons_append] at h
          cases W2 with
          | none => simp only [wtok] at h; cases h
          | some w2 =>
              simp only [wtok] at h
              injection h with h1 _
              have hd := congrArg String.data h1
              rw [show ("*" : String).data = ['*'] from rfl, dstar_append_data] at hd
              injection hd with _ hd2
              cases hd2
      | cons k2 t2 =>
          simp only [ktok, List.cons_append] at h
          injection h with _ h2
          exact identList_wtok_inj (k1 :: t1) (k2 :: t2) W1 W2 hk1 hk2 h2

theorem tokenTail_inj (V1 V2 : Option String) (K1 K2 : List String) (W1 W2 : Option String)
    (hv1 : ∀ v, V1 = some v → isIdentStr v = true)
    (hv2 : ∀ v, V2 = some v → isIdentStr v = true)
    (hk1 : ∀ k ∈ K1, isIdentStr k = true) (hk2 : ∀ k ∈ K2, isIdentStr k = true)
    (h : vtok V1 ++ ktok K1 ++ wtok W1 = vtok V2 ++ ktok K2 ++ wtok W2) :
    V1 = V2 ∧ K1 = K2 ∧ W1 = W2 := by
  cases V1 with
  | some v1 =>
      cases V2 with
      | some v2 =>
          simp only [vtok, List.cons_append, List.nil_append, List.append_assoc] at h
          injection h with h1 h2
          have hkw := kwTail_inj K1 K2 W1 W2 hk1 hk2 h2
          exact ⟨by rw [star_append_inj "*" v1 v2 h1], hkw.1, hkw.2⟩
      | none =>
          exfalso
          simp only [vtok, List.cons_append, List.nil_append, List.append_assoc] at h
          cases K2 with
          | cons k2 t2 =>
              simp only [ktok, List.cons_append] at h
              injection h with h1 _
              have hd := congrArg String.data h1
              rw [star_append_data, show ("*" : String).data = ['*'] from rfl] at hd
              injection hd with _ hd2
              obtain ⟨c, cs, hdd, _⟩ := ident_head v1 (hv1 v1 rfl)
              rw [hdd] at hd2
              cases hd2
          | nil =>
              simp only [ktok, List.nil_append] at h
              cases W2 with
              | some w2 =>
                  simp only [wtok] at h
                  injection h with h1 _
                  have hd := congrArg String.data h1
                  rw [star_append_data, dstar_append_data] at hd
                  injection hd with _ hd2
                  exact ident_head_not_star v1 (hv1 v1 rfl) w2.data hd2
              | none => simp only [wtok] at h; cases h
  | none =>
      cases V2 with
      | some v2 =>
          exfalso
          simp only [vtok, List.cons_append, List.nil_append, List.append_assoc] at h
          cases K1 with
          | cons k1 t1 =>
              simp only [ktok, List.cons_append] at h
              injection h with h1 _
              have hd := congrArg String.data h1
              rw [star_append_data, show ("*" : String).data = ['*'] from rfl] at hd
              injection hd with _ hd2
              obtain ⟨c, cs, hdd, _⟩ := ident_head v2 (hv2 v2 rfl)
              rw [hdd] at hd2
              cases hd2
          | nil =>
              simp only [ktok, List.nil_append] at h
              cases W1 with
              | some w1 =>
                  simp only [wtok] at h
                  injection h with h1 _
                  have hd := congrArg String.data h1
                  rw [star_append_data, dstar_append_data] at hd
                  injection hd with _ hd2
                  exact ident_head_not_star v2 (hv2 v2 rfl) w1.data hd2.symm
              | none => simp only [wtok] at h; cases h
      | none =>
          simp only [vtok, List.nil_append] at h
          have hkw := kwTail_inj K1 K2 W1 W2 hk1 hk2 h
          exact ⟨rfl, hkw.1, hkw.2⟩

theorem tokenSections_inj :
    ∀ (A1 A2 : List String) (V1 V2 : Option String) (K1 K2 : List String)
      (W1 W2 : Option String),
      (∀ a ∈ A1, isIdentStr a = true) → (∀ a ∈ A2, isIdentStr a = true) →
      (∀ v, V1 = some v → isIdentStr v = true) → (∀ v, V2 = some v → isIdentStr v = true) →
      (∀ k ∈ K1, isIdentStr k = true) → (∀ k ∈ K2, isIdentStr k = true) →
      A1 ++ vtok V1 ++ ktok K1 ++ wtok W1 = A2 ++ vtok V2 ++ ktok K2 ++ wtok W2 →
      A1 = A2 ∧ V1 = V2 ∧ K1 = K2 ∧ W1 = W2 := by
  intro A1
  induction A1 with
  | nil =>
      intro A2 V1 V2 K1 K2 W1 W2 _ ha2 hv1 hv2 hk1 hk2 h
      cases A2 with
      | nil =>
          simp only [List.nil_append] at h
          have htl := tokenTail_inj V1 V2 K1 K2 W1 W2 hv1 hv2 hk1 hk2 h
          exact ⟨rfl, htl⟩
      | cons a2 t2 =>
          exfalso
          simp only [List.nil_append, List.cons_append] at h
          cases hshape : vtok V1 ++ ktok K1 ++ wtok W1 with
          | nil => rw [hshape] at h; cases h
          | cons s rest =>
              rw [hshape] at h
              injection h with h1 _
              obtain ⟨cs, hcs⟩ := tail_head_star V1 K1 W1 hv1 s rest hshape
              have hni := ident_head_not_star a2 (ha2 a2 (List.mem_cons_self a2 t2)) cs
              rw [h1] at hcs
              exact hni hcs
  | cons a1 t1 ih =>
      intro A2 V1 V2 K1 K2 W1 W2 ha1 ha2 hv1 hv2 hk1 hk2 h
      cases A2 with
      | nil =>
          exfalso
          simp only [List.nil_append, List.cons_append] at h
          cases hshape : vtok V2 ++ ktok K2 ++ wtok W2 with
          | nil => rw [hshape] at h; cases h
          | cons s rest =>
              rw [hshape] at h
              injection h with h1 _
              obtain ⟨cs, hcs⟩ := tail_head_star V2 K2 W2 hv2 s rest hshape
              have hni := ident_head_not_star a1 (ha1 a1 (List.mem_cons_self a1 t1)) cs
              rw [← h1] at hcs
              exact hni hcs
      | cons a2 t2 =>
          simp only [List.cons_append] at h
          injection h with h1 h2
          have hrec := ih t2 V1 V2 K1 K2 W1 W2
            (fun a ha => ha1 a (List.mem_cons_of_mem a1 ha))
            (fun a ha => ha2 a (List.mem_cons_of_mem a2 ha)) hv1 hv2 hk1 hk2 h2
          exact ⟨by rw [h1, hrec.1], hrec.2⟩


/-! ### C2: character facts and assembly -/

theorem commaJoin_inj :
    ∀ (l1 l2 : List String),
      (∀ t ∈ l1, t.data ≠ [] ∧ ',' ∉ t.data) → (∀ t ∈ l2, t.data ≠ [] ∧ ',' ∉ t.data) →
      commaJoin l1 = commaJoin l2 → l1 = l2 := by
  intro l1
  induction l1 with
  | nil =>
      intro l2 _ h2 h
      cases l2 with
      | nil => rfl
      | cons y ys =>
          exfalso
          have hd := congrArg String.data h
          rw [show (commaJoin ([] : List String)).data = [] from rfl] at hd
          cases ys with
          | nil =>
              rw [commaJoin_singleton] at hd
              exact (h2 y (List.mem_cons_self y [])).1 hd.symm
          | cons z zs =>
              rw [commaJoin_map_data_cons] at hd
              exact (h2 y (List.mem_cons_self y (z :: zs))).1
                (List.append_eq_nil.mp hd.symm).1
  | cons x xs ih =>
      intro l2 h1 h2 h
      cases l2 with
      | nil =>
          exfalso
          have hd := congrArg String.data h
          rw [show (commaJoin ([] : List String)).data = [] from rfl] at hd
          cases xs with
          | nil =>
              rw [commaJoin_singleton] at hd
              exact (h1 x (List.mem_cons_self x [])).1 hd
          | cons z zs =>
              rw [commaJoin_map_data_cons] at hd
              exact (h1 x (List.mem_cons_self x (z :: zs))).1
                (List.append_eq_nil.mp hd).1
      | cons y ys =>
          cases xs with
          | nil =>
              cases ys with
              | nil =>
                  rw [commaJoin_singleton, commaJoin_singleton] at h
                  rw [h]
              | cons z2 zs2 =>
                  exfalso
                  rw [commaJoin_singleton] at h
                  have hd := congrArg String.data h
                  rw [commaJoin_map_data_cons] at hd
                  apply (h1 x (List.mem_cons_self x [])).2
                  rw [hd]
                  exact List.mem_append.mpr (Or.inr (List.mem_cons_self ',' _))
          | cons x2 xs2 =>
              cases ys with
              | nil =>
                  exfalso
                  rw [commaJoin_singleton] at h
                  have hd := congrArg String.data h
                  rw [commaJoin_map_data_cons] at hd
                  apply (h2 y (List.mem_cons_self y [])).2
                  rw [← hd]
                  exact List.mem_append.mpr (Or.inr (List.mem_cons_self ',' _))
              | cons z2 zs2 =>
                  have hd := congrArg String.data h
                  rw [commaJoin_map_data_cons, commaJoin_map_data_cons] at hd
                  obtain ⟨hxy, htail⟩ := append_sep_split ',' x.data y.data _ _
                    (h1 x (List.mem_cons_self x _)).2 (h2 y (List.mem_cons_self y _)).2 hd
                  injection htail with _ htail2
                  have hrec := ih (z2 :: zs2)
                    (fun t ht => h1 t (List.mem_cons_of_mem x ht))
                    (fun t ht => h2 t (List.mem_cons_of_mem y ht))
                    (String.ext htail2)
                  rw [String.ext hxy, hrec]

theorem mem_commaJoin_data :
    ∀ (l : List String) (c : Char), c ∈ (commaJoin l).data →
      c = ',' ∨ c = ' ' ∨ ∃ s ∈ l, c ∈ s.data := by
  intro l
  induction l with
  | nil =>
      intro c hc
      rw [show (commaJoin ([] : List String)).data = [] from rfl] at hc
      cases hc
  | cons x xs ih =>
      intro c hc
      cases xs with
      | nil =>
          rw [commaJoin_singleton] at hc
          exact Or.inr (Or.inr ⟨x, List.mem_cons_self x [], hc⟩)
      | cons y ys =>
          rw [commaJoin_map_data_cons] at hc
          rcases List.mem_append.mp hc with hx | hrest
          · exact Or.inr (Or.inr ⟨x, List.mem_cons_self x _, hx⟩)
          · rcases List.mem_cons.mp hrest with rfl | hrest2
            · exact Or.inl rfl
            · rcases List.mem_cons.mp hrest2 with rfl | hrest3
              · exact Or.inr (Or.inl rfl)
              · rcases ih c hrest3 with h | h | ⟨s, hs, hcs⟩
                · exact Or.inl h
                · exact Or.inr (Or.inl h)
                · exact Or.inr (Or.inr ⟨s, List.mem_cons_of_mem x hs, hcs⟩)

theorem ident_token_shape (s : String) (hs : isIdentStr s = true) :
    s.data ≠ [] ∧ ∀ c ∈ s.data, isIdentChar c = true ∨ c = '*' := by
  unfold isIdentStr at hs
  rw [Bool.and_eq_true] at hs
  obtain ⟨hne, hall⟩ := hs
  constructor
  · intro hd
    rw [hd] at hne
    simp at hne
  · intro c hc
    exact Or.inl (List.all_eq_true.mp hall c hc)

theorem sigTokens_token_shape (f : FunctionDef) (hf : sigNamesOk f = true) :
    ∀ t ∈ sigTokens f, t.data ≠ [] ∧ ∀ c ∈ t.data, isIdentChar c = true ∨ c = '*' := by
  obtain ⟨ha, hv, hk, hw⟩ := sigNamesOk_parts f hf
  intro t ht
  rw [sigTokens_sections] at ht
  rcases List.mem_append.mp ht with h3 | hW
  · rcases List.mem_append.mp h3 with h2 | hK
    · rcases List.mem_append.mp h2 with hA | hV
      · rcases List.mem_map.mp hA with ⟨a, hamem, rfl⟩
        exact ident_token_shape a.name (ha a hamem)
      · cases hva : f.args.vararg with
        | none => rw [hva] at hV; cases hV
        | some v =>
            rw [hva] at hV
            simp only [vtok, List.mem_singleton] at hV
            subst hV
            rw [star_append_data]
            refine ⟨by simp, ?_⟩
            intro c hc
            rcases List.mem_cons.mp hc with rfl | hc2
            · exact Or.inr rfl
            · rcases (ident_token_shape v (hv v hva)).2 c hc2 with hci | hcs
              · exact Or.inl hci
              · exact Or.inr hcs
    · cases hkm : f.args.kwonlyargs.map (·.name) with
      | nil => rw [hkm] at hK; cases hK
      | cons k ks =>
          rw [hkm] at hK
          simp only [ktok] at hK
          rcases List.mem_cons.mp hK with rfl | hK2
          · refine ⟨by decide, ?_⟩
            intro c hc
            rw [show ("*" : String).data = ['*'] from rfl] at hc
            rcases List.mem_cons.mp hc with rfl | hc2
            · exact Or.inr rfl
            · cases hc2
          · have hkk : t ∈ f.args.kwonlyargs.map (·.name) := by rw [hkm]; exact hK2
            rcases List.mem_map.mp hkk with ⟨a, hamem, rfl⟩
            exact ident_token_shape a.name (hk a hamem)
  · cases hwa : f.args.kwarg with
    | none => rw [hwa] at hW; cases hW
    | some w =>
        rw [hwa] at hW
        simp only [wtok, List.mem_singleton] at hW
        subst hW
        rw [dstar_append_data]
        refine ⟨by simp, ?_⟩
        intro c hc
        rcases List.mem_cons.mp hc with rfl | hc2
        · exact Or.inr rfl
        · rcases List.mem_cons.mp hc2 with rfl | hc3
          · exact Or.inr rfl
          · have hws := ident_token_shape w (hw w hwa)
            rcases hws.2 c hc3 with hci | hcs
            · exact Or.inl hci
            · exact Or.inr hcs


theorem sigTokens_ok (f : FunctionDef) (hf : sigNamesOk f = true) :
    ∀ t ∈ sigTokens f, t.data ≠ [] ∧ ',' ∉ t.data := by
  intro t ht
  obtain ⟨hne, hchars⟩ := sigTokens_token_shape f hf t ht
  refine ⟨hne, ?_⟩
  intro hc
  rcases hchars ',' hc with hci | hcs
  · exact absurd hci (by decide)
  · exact absurd hcs (by decide)

theorem no_paren_commaJoin_sigTokens (f : FunctionDef) (hf : sigNamesOk f = true) :
    ')' ∉ (commaJoin (sigTokens f)).data := by
  intro hc
  rcases mem_commaJoin_data (sigTokens f) ')' hc with h | h | ⟨s, hs, hcs⟩
  · exact absurd h (by decide)
  · exact absurd h (by decide)
  · rcases (sigTokens_token_shape f hf s hs).2 ')' hcs with hci | hcs2
    · exact absurd hci (by decide)
    · exact absurd hcs2 (by decide)

theorem sfxK_inj (K1 K2 : List String)
    (h : (sfxPart " kw_defaults=" K1).data = (sfxPart " kw_defaults=" K2).data) : K1 = K2 := by
  by_cases h1 : K1 = []
  · by_cases h2 : K2 = []
    · rw [h1, h2]
    · exfalso
      unfold sfxPart at h
      rw [if_pos h1, if_neg h2, String.data_append] at h
      have hnil : (" kw_defaults=" : String).data ++ (pyListRepr K2).data = [] := h.symm
      exact absurd (List.append_eq_nil.mp hnil).1 (by decide)
  · by_cases h2 : K2 = []
    · exfalso
      unfold sfxPart at h
      rw [if_neg h1, if_pos h2, String.data_append] at h
      have hnil : (" kw_defaults=" : String).data ++ (pyListRepr K1).data = [] := h
      exact absurd (List.append_eq_nil.mp hnil).1 (by decide)
    · unfold sfxPart at h
      rw [if_neg h1, if_neg h2, String.data_append, String.data_append] at h
      have hcan := List.append_cancel_left h
      have := pyListRepr_split K1 K2 [] [] (by rw [List.append_nil, List.append_nil]; exact hcan)
      exact this.1

theorem sfx_pair_inj (D1 D2 K1 K2 : List String)
    (h : (sfxPart " defaults=" D1).data ++ (sfxPart " kw_defaults=" K1).data =
         (sfxPart " defaults=" D2).data ++ (sfxPart " kw_defaults=" K2).data) :
    D1 = D2 ∧ K1 = K2 := by
  by_cases h1 : D1 = []
  · by_cases h2 : D2 = []
    · subst h1
      subst h2
      rw [show sfxPart " defaults=" ([] : List String) = "" from rfl] at h
      rw [show (("" : String)).data = [] from rfl, List.nil_append, List.nil_append] at h
      exact ⟨rfl, sfxK_inj K1 K2 h⟩
    · exfalso
      subst h1
      rw [show sfxPart " defaults=" ([] : List String) = "" from rfl] at h
      rw [show (("" : String)).data = [] from rfl, List.nil_append] at h
      unfold sfxPart at h
      rw [if_neg h2, String.data_append] at h
      by_cases hk1 : K1 = []
      · rw [if_pos hk1] at h
        rw [show (("" : String)).data = [] from rfl] at h
        have h0 := (List.append_eq_nil.mp h.symm).1
        exact absurd (List.append_eq_nil.mp h0).1 (by decide)
      · rw [if_neg hk1, String.data_append] at h
        rw [show (" kw_defaults=" : String).data =
              ' ' :: 'k' :: ("w_defaults=" : String).data from rfl] at h
        rw [show (" defaults=" : String).data =
              ' ' :: 'd' :: ("efaults=" : String).data from rfl] at h
        rw [List.cons_append, List.cons_append, List.cons_append, List.cons_append] at h
        injection h with _ h
        injection h with hkd _
        exact absurd hkd (by decide)
  · by_cases h2 : D2 = []
    · exfalso
      subst h2
      rw [show sfxPart " defaults=" ([] : List String) = "" from rfl] at h
      rw [show (("" : String)).data = [] from rfl, List.nil_append] at h
      unfold sfxPart at h
      rw [if_neg h1, String.data_append] at h
      by_cases hk2 : K2 = []
      · rw [if_pos hk2] at h
        rw [show (("" : String)).data = [] from rfl] at h
        have h0 := (List.append_eq_nil.mp h).1
        exact absurd (List.append_eq_nil.mp h0).1 (by decide)
      · rw [if_neg hk2, String.data_append] at h
        rw [show (" kw_defaults=" : String).data =
              ' ' :: 'k' :: ("w_defaults=" : String).data from rfl] at h
        rw [show (" defaults=" : String).data =
              ' ' :: 'd' :: ("efaults=" : String).data from rfl] at h
        rw [List.cons_append, List.cons_append, List.cons_append, List.cons_append] at h
        injection h with _ h
        injection h with hkd _
        exact absurd hkd (by decide)
    · have hD1 : sfxPart " defaults=" D1 = " defaults=" ++ pyListRepr D1 := by
        unfold sfxPart
        rw [if_neg h1]
      have hD2 : sfxPart " defaults=" D2 = " defaults=" ++ pyListRepr D2 := by
        unfold sfxPart
        rw [if_neg h2]
      rw [hD1, hD2, String.data_append, String.data_append] at h
      rw [List.append_assoc, List.append_assoc] at h
      have hcan := List.append_cancel_left h
      obtain ⟨hD, hrest⟩ := pyListRepr_split D1 D2 _ _ hcan
      exact ⟨hD, sfxK_inj K1 K2 hrest⟩

/-- C2 counterexample: two pairs of functions that differ only in a type
annotation, or only in which same-kind keyword-only parameter carries the
default, get identical canonical signatures and identical fingerprints. -/
theorem claim_C2_counterexample :
    (get_function_signature fAnnInt = get_function_signature fAnnStr ∧
     calculate_node_checksum (.funcDecl fAnnInt) = calculate_node_checksum (.funcDecl fAnnStr) ∧
     fAnnInt ≠ fAnnStr) ∧
    (get_function_signature fKwA = get_function_signature fKwB ∧
     calculate_node_checksum (.funcDecl fKwA) = calculate_node_checksum (.funcDecl fKwB) ∧
     fKwA ≠ fKwB) := by
  refine ⟨⟨?_, ?_, ?_⟩, ?_, ?_, ?_⟩ <;> decide

/-- C2 as amended: over parameter lists whose names are identifiers, two
`FunctionDef`s get the same canonical signature exactly when they agree on
positional names and order, the vararg, the keyword-only names and order,
the kwarg, the structural dumps of the positional defaults, and the
sequence of present keyword-only default dumps; in particular the signature
is insensitive to type annotations (and to which same-section keyword-only
parameter holds a default, as only the filtered dump sequence enters), and
it is a function of the syntax tree alone, hence identical under
formatting-only changes. -/
theorem claim_C2_canonical_signature (f g : FunctionDef)
    (hf : sigNamesOk f = true) (hg : sigNamesOk g = true) :
    get_function_signature f = get_function_signature g ↔
      sigComponents f = sigComponents g := by
  constructor
  · intro h
    rw [sig_canonical f, sig_canonical g] at h
    have hd := congrArg String.data h
    simp only [String.data_append, List.append_assoc] at hd
    simp only [List.singleton_append] at hd
    injection hd with _ hd
    obtain ⟨hcj, hsfx⟩ := append_sep_split ')' _ _ _ _
      (no_paren_commaJoin_sigTokens f hf) (no_paren_commaJoin_sigTokens g hg) hd
    have htok := commaJoin_inj (sigTokens f) (sigTokens g)
      (sigTokens_ok f hf) (sigTokens_ok g hg) (String.ext hcj)
    rw [sigTokens_sections, sigTokens_sections] at htok
    obtain ⟨haf, hvf, hkf, hwf⟩ := sigNamesOk_parts f hf
    obtain ⟨hag, hvg, hkg, hwg⟩ := sigNamesOk_parts g hg
    obtain ⟨hA, hV, hK, hW⟩ := tokenSections_inj _ _ _ _ _ _ _ _
      (fun s hs => by rcases List.mem_map.mp hs with ⟨a, ham, rfl⟩; exact haf a ham)
      (fun s hs => by rcases List.mem_map.mp hs with ⟨a, ham, rfl⟩; exact hag a ham)
      hvf hvg
      (fun s hs => by rcases List.mem_map.mp hs with ⟨a, ham, rfl⟩; exact hkf a ham)
      (fun s hs => by rcases List.mem_map.mp hs with ⟨a, ham, rfl⟩; exact hkg a ham)
      htok
    obtain ⟨hD, hKD⟩ := sfx_pair_inj _ _ _ _ hsfx
    unfold sigComponents
    rw [hA, hV, hK, hW, hD, hKD]
  · intro h
    have hf2 : get_function_signature f = sigFromComponents (sigComponents f) := rfl
    have hg2 : get_function_signature g = sigFromComponents (sigComponents g) := rfl
    rw [hf2, hg2, h]

/-- C2 witness: the equivalence applied to the annotation-only pair. -/
theorem claim_C2_witness :
    get_function_signature fAnnInt = get_function_signature fAnnStr :=
  (claim_C2_canonical_signature fAnnInt fAnnStr (by decide) (by decide)).mpr (by decide)
